import Mathlib

/-!
Verification of `storage/blobstore.c` (a local block-blob store) against its
natural-language specification.  The C code is shallowly embedded: paths are
lists of components, the filesystem is an association list from paths to file
contents plus a list of directories, machine integers become `Nat`/`Int` with
explicit truncation where the C code truncates, and results of external
helpers (dmsetup, losetup, dd) are explicit environment parameters.
-/

set_option maxRecDepth 100000

namespace Blobstore

/-- The blobstore error taxonomy (`blobstore_error_t`). -/
inductive BlobstoreError where
  | OK | NOENT | NOMEM | ACCES | EXIST | INVAL | NOSPC | AGAIN | MFILE | BADF | SIGNATURE | UNKNOWN
deriving DecidableEq, Repr

/-- The kinds of per-blob sidecar files (`blockblob_path_t`, without the NONE sentinel). -/
inductive BlockblobPathT where
  | blocks | dm | deps | loopback | sig | refs
deriving DecidableEq, Repr

/-- The suffix string of each sidecar kind (`blobstore_metadata_suffixes`). -/
def suffixOf : BlockblobPathT → String
  | .blocks => "blocks"
  | .dm => "dm"
  | .deps => "deps"
  | .loopback => "loopback"
  | .sig => "sig"
  | .refs => "refs"

/-- Store layout (`blobstore_format_t`): sidecars are `<id>.<suffix>` or `<id>/<suffix>`. -/
inductive BlobstoreFormat where
  | files | directory
deriving DecidableEq, Repr

/-- A filesystem path, as its list of `/`-separated components. -/
abbrev FsPath := List String

/-- In the Files layout the suffix is glued to the last path component with a dot;
`set_blockblob_metadata_path` builds `BS/BB.x` by string concatenation. -/
def attachSuffix (id : FsPath) (sfx : String) : FsPath :=
  match id with
  | [] => [sfx]
  | [last] => [last ++ "." ++ sfx]
  | c :: rest => c :: attachSuffix rest sfx

/-- `set_blockblob_metadata_path`: the path of sidecar `k` of blob `id` in store `bsPath`. -/
def set_blockblob_metadata_path (fmt : BlobstoreFormat) (bsPath : FsPath) (id : FsPath)
    (k : BlockblobPathT) : FsPath :=
  match fmt with
  | .files => bsPath ++ attachSuffix id (suffixOf k)
  | .directory => bsPath ++ id ++ [suffixOf k]

/-- The filesystem: files with their raw contents, and the set of directories. -/
structure FS where
  files : List (FsPath × String)
  dirs : List FsPath
deriving DecidableEq, Repr

/-- Content of a file, if present (`open`/`fopen` for reading). -/
def FS.getFile (fs : FS) (p : FsPath) : Option String :=
  (fs.files.find? (fun e => e.1 = p)).map Prod.snd

/-- `fopen(path, "w")`/`"w+"`: truncate-or-create, then write the whole content. -/
def FS.setFile (fs : FS) (p : FsPath) (c : String) : FS :=
  { fs with files := (p, c) :: fs.files.filter (fun e => ¬ e.1 = p) }

/-- `unlink(path)`: returns whether the file existed, and the filesystem afterwards. -/
def FS.unlink (fs : FS) (p : FsPath) : Bool × FS :=
  (decide ((fs.files.find? (fun e => e.1 = p)).isSome),
   { fs with files := fs.files.filter (fun e => ¬ e.1 = p) })

/-- `q` is a strictly shorter leading portion of the path `p` (a parent directory). -/
def properLead (q p : FsPath) : Bool :=
  q.isPrefixOf p && decide (q.length < p.length)

/-- A directory is empty when no file lives strictly below it and no other
directory lies strictly below it. -/
def FS.dirEmpty (fs : FS) (d : FsPath) : Bool :=
  fs.files.all (fun e => ¬ properLead d e.1) && fs.dirs.all (fun e => ¬ properLead d e)

/-- `rmdir(path)`: succeeds only on a present, empty directory. -/
def FS.rmdir (fs : FS) (d : FsPath) : Bool × FS :=
  if decide (d ∈ fs.dirs) && fs.dirEmpty d then
    (true, { fs with dirs := fs.dirs.filter (fun e => ¬ e = d) })
  else (false, fs)

/-! ### The list-sidecar codec
`write_array_blockblob_metadata_path` prints each entry followed by a newline;
`read_array_blockblob_metadata_path` reads back with `getline`, chopping the
trailing newline of each line and stopping at end of file. -/

/-- Content produced by the `fprintf (fp, "%s\n", array[i])` loop. -/
def write_array_chars (entries : List (List Char)) : List Char :=
  entries.foldr (fun e acc => e ++ '\n' :: acc) []

/-- The `getline` loop: accumulate the current line (reversed); a newline ends a
line (and is chopped); end of input emits a final unterminated line, or nothing
when no character was read (the `feof` break). -/
def readLinesAux : List Char → List Char → List (List Char)
  | [], [] => []
  | cur, [] => [cur.reverse]
  | cur, '\n' :: cs => cur.reverse :: readLinesAux [] cs
  | cur, c :: cs => readLinesAux (c :: cur) cs

/-- `write_array_blockblob_metadata_path`: write all entries, one per line, into
sidecar `k` of blob `id`. -/
def write_array_blockblob_metadata_path (fmt : BlobstoreFormat) (bsPath id : FsPath)
    (k : BlockblobPathT) (entries : List String) (fs : FS) : FS :=
  fs.setFile (set_blockblob_metadata_path fmt bsPath id k)
    (String.mk (write_array_chars (entries.map String.data)))

/-- `read_array_blockblob_metadata_path`: read the lines of sidecar `k` of blob
`id`; a missing file reads as the empty array. -/
def read_array_blockblob_metadata_path (fmt : BlobstoreFormat) (bsPath id : FsPath)
    (k : BlockblobPathT) (fs : FS) : List String :=
  match fs.getFile (set_blockblob_metadata_path fmt bsPath id k) with
  | none => []
  | some c => (readLinesAux [] c.data).map String.mk

theorem find?_setFile (fs : FS) (p : FsPath) (c : String) :
    ((fs.setFile p c).files.find? (fun e => e.1 = p)) = some (p, c) := by
  simp [FS.setFile, List.find?]

theorem getFile_setFile (fs : FS) (p : FsPath) (c : String) :
    (fs.setFile p c).getFile p = some c := by
  simp [FS.getFile, find?_setFile]

theorem readLinesAux_line (cur l rest : List Char) (hl : '\n' ∉ l) :
    readLinesAux cur (l ++ '\n' :: rest) = (cur.reverse ++ l) :: readLinesAux [] rest := by
  induction l generalizing cur with
  | nil => simp [readLinesAux]
  | cons c cs ih =>
    have hc : c ≠ '\n' := fun h => hl (h ▸ List.mem_cons_self c cs)
    have hcs : '\n' ∉ cs := fun h => hl (List.mem_cons_of_mem c h)
    rw [List.cons_append]
    rw [show readLinesAux cur (c :: (cs ++ '\n' :: rest)) = readLinesAux (c :: cur) (cs ++ '\n' :: rest) by
      cases cur <;> simp [readLinesAux, hc]]
    rw [ih (c :: cur) hcs]
    simp

theorem read_write_chars (entries : List (List Char)) (h : ∀ e ∈ entries, '\n' ∉ e) :
    readLinesAux [] (write_array_chars entries) = entries := by
  induction entries with
  | nil => rfl
  | cons e es ih =>
    have he : '\n' ∉ e := h e (List.mem_cons_self e es)
    have hes : ∀ x ∈ es, '\n' ∉ x := fun x hx => h x (List.mem_cons_of_mem e hx)
    show readLinesAux [] (e ++ '\n' :: write_array_chars es) = e :: es
    rw [readLinesAux_line [] e _ he, ih hes]
    simp

theorem stringMkData (s : String) : String.mk s.data = s := rfl

theorem dataStringMk (l : List Char) : (String.mk l).data = l := rfl

/-- **C7** (amended). For every list-sidecar kind, store layout and blob id, and every
array of entry strings none of which contains a newline character, writing the array
with `write_array_blockblob_metadata_path` and reading it back with
`read_array_blockblob_metadata_path` yields the same ordered sequence of entries. -/
theorem c7_theorem (fmt : BlobstoreFormat) (bsPath id : FsPath) (k : BlockblobPathT)
    (entries : List String) (fs : FS) (h : ∀ e ∈ entries, '\n' ∉ e.data) :
    read_array_blockblob_metadata_path fmt bsPath id k
      (write_array_blockblob_metadata_path fmt bsPath id k entries fs) = entries := by
  unfold read_array_blockblob_metadata_path write_array_blockblob_metadata_path
  rw [getFile_setFile]
  show (readLinesAux [] (String.mk (write_array_chars (entries.map String.data))).data).map
    String.mk = entries
  rw [dataStringMk]
  rw [read_write_chars (entries.map String.data)
       (by intro e he; rcases List.mem_map.mp he with ⟨s, hs, rfl⟩; exact h s hs)]
  rw [List.map_map]
  simp only [Function.comp_def, stringMkData, List.map_id', List.map_id'']

/-- **C7** (counterexample). The round trip law fails as stated for arbitrary entry
strings: the single entry `"a\nb"` is written as two lines and reads back as the
two entries `"a"` and `"b"`. -/
theorem c7_counterexample :
    read_array_blockblob_metadata_path .files ["bs"] ["blob"] .dm
      (write_array_blockblob_metadata_path .files ["bs"] ["blob"] .dm ["a\nb"]
        { files := [], dirs := [["bs"]] }) = ["a", "b"] := by
  rfl

/-- **C7** (witness). The amended round trip holds at a concrete sidecar write of
two newline-free entries. -/
theorem c7_witness :
    (∀ e ∈ ["/store1 blobA", "euca-dm-dev-p0-snap"], '\n' ∉ e.data) ∧
    read_array_blockblob_metadata_path .files ["bs"] ["blob"] .dm
      (write_array_blockblob_metadata_path .files ["bs"] ["blob"] .dm
        ["/store1 blobA", "euca-dm-dev-p0-snap"] { files := [], dirs := [["bs"]] }) =
      ["/store1 blobA", "euca-dm-dev-p0-snap"] :=
  ⟨by decide, c7_theorem .files ["bs"] ["blob"] .dm _ _ (by decide)⟩

/-! ### The FileLock registry
`open_and_lock` / `close_and_unlock` over the process-global `locks_list`.
Sequential (single-thread) semantics: a lock attempt either succeeds at once or
runs out of its deadline (`AGAIN`); the `fcntl` file-range lock never conflicts
with locks of the same process, so intra-process conflicts are decided by the
entry's reader/writer lock, which the source acquires at open and only destroys
when the whole entry is freed. -/

def BLOBSTORE_MAX_CONCURRENT : Nat := 99

/-- `open_and_lock` request flags (`BLOBSTORE_FLAG_*`). -/
structure BlobFlags where
  rdonly : Bool
  rdwr : Bool
  creat : Bool
  excl : Bool
deriving DecidableEq, Repr

/-- `F_RDLCK` / `F_WRLCK`. -/
inductive LockType where
  | rd | wr
deriving DecidableEq, Repr

/-- The `open(2)` flags that `open_and_lock` computes (`O_CREAT`, `O_EXCL`). -/
structure OFlags where
  creat : Bool
  excl : Bool
deriving DecidableEq, Repr

/-- Lock-type and open-flag decoding at the top of `open_and_lock`; `O_EXCL` is
added only inside the `_CREAT` branch. `none` is the "flags must include either
_RDONLY or _RDWR or _CREAT" invalid-argument rejection. -/
def decodeFlags (flags : BlobFlags) : Option (LockType × OFlags) :=
  if flags.rdonly then some (.rd, ⟨false, false⟩)
  else if flags.rdwr || flags.creat then some (.wr, ⟨flags.creat, flags.creat && flags.excl⟩)
  else none

/-- One `blobstore_filelock` entry: agreed lock type, holder count `refs`, the
descriptor table `fd[]`/`fd_status[]` up to `next_fd` (slots are appended, never
reused), and the state of the entry's pthread reader/writer lock. -/
structure FileLock where
  path : String
  ltype : LockType
  refs : Nat
  slots : List (Nat × Bool)
  readers : Nat
  writer : Bool
deriving DecidableEq, Repr

/-- Process state: the `locks_list` registry, the next OS descriptor number, and
the set of paths that exist as files (for `open(2)`). -/
structure RegState where
  locks : List FileLock
  nextFd : Nat
  fileSet : List String
deriving DecidableEq, Repr

def updateByPath (locks : List FileLock) (p : String) (f : FileLock → FileLock) :
    List FileLock :=
  locks.map (fun e => if e.path = p then f e else e)

/-- The error path of `open_and_lock` after the holder count was incremented:
drop one reference and free the entry when none remain. -/
def dropRef (s : RegState) (p : String) : RegState :=
  { s with locks :=
      ((updateByPath s.locks p (fun e => { e with refs := e.refs - 1 })).filter
        (fun e => ¬ (e.path = p ∧ e.refs = 0))) }

/-- `open_and_lock(path, flags, timeout, mode)`.  Descriptors are numbered by a
running counter; negative descriptors never arise. -/
def open_and_lock (flags : BlobFlags) (path : String) (s : RegState) :
    Except BlobstoreError Nat × RegState :=
  match decodeFlags flags with
  | none => (.error .INVAL, s)
  | some (lt, ofl) =>
    let (l, locks1) : FileLock × List FileLock :=
      match s.locks.find? (fun l => l.path = path) with
      | some l => (l, s.locks)
      | none => (⟨path, lt, 0, [], 0, false⟩, s.locks ++ [⟨path, lt, 0, [], 0, false⟩])
    let s1 : RegState := { s with locks := locks1 }
    if l.slots.length = BLOBSTORE_MAX_CONCURRENT then (.error .MFILE, s1)
    else if l.ltype ≠ lt then (.error .INVAL, s1)
    else
      let s2 : RegState := { s1 with locks :=
        (updateByPath locks1 path (fun e => { e with refs := e.refs + 1 })) }
      let pres : Bool := s2.fileSet.contains path
      if ¬ ofl.creat ∧ ¬ pres then (.error .NOENT, dropRef s2 path)
      else if ofl.creat ∧ ofl.excl ∧ pres then (.error .EXIST, dropRef s2 path)
      else
        let fd := s2.nextFd
        let s3 : RegState := { s2 with
          fileSet := if pres then s2.fileSet else path :: s2.fileSet,
          nextFd := s2.nextFd + 1 }
        let canLock : Bool := match lt with
          | .rd => ¬ l.writer
          | .wr => ¬ l.writer ∧ l.readers = 0
        if canLock then
          (.ok fd, { s3 with locks :=
            (updateByPath s3.locks path (fun e =>
              { e with slots := e.slots ++ [(fd, true)],
                       readers := match lt with | .rd => e.readers + 1 | .wr => e.readers,
                       writer := match lt with | .rd => e.writer | .wr => true })) })
        else (.error .AGAIN, dropRef s3 path)

/-- `close_and_unlock(fd)`: find the entry whose table holds `fd`; mark the slot
unused and drop one holder; free the entry (closing every descriptor) when the
holder count reaches zero.  A slot already marked unused, or an unknown
descriptor, is `BADF`. -/
def close_and_unlock (fd : Nat) (s : RegState) : Except BlobstoreError Unit × RegState :=
  match s.locks.find? (fun l => l.slots.any (fun sl => sl.1 = fd)) with
  | none => (.error .BADF, s)
  | some l =>
    match l.slots.find? (fun sl => sl.1 = fd) with
    | some (_, true) =>
      if l.refs - 1 = 0 then
        (.ok (), { s with locks := s.locks.filter (fun e => ¬ e.path = l.path) })
      else
        (.ok (), { s with locks :=
          (updateByPath s.locks l.path (fun e =>
            { e with refs := e.refs - 1,
                     slots := e.slots.map (fun sl => if sl.1 = fd then (sl.1, false) else sl) })) })
    | _ => (.error .BADF, s)

theorem open_and_lock_congr (f1 f2 : BlobFlags) (p : String) (s : RegState)
    (h : decodeFlags f1 = decodeFlags f2) :
    open_and_lock f1 p s = open_and_lock f2 p s := by
  unfold open_and_lock
  rw [h]

/-- **C9**. When the flags of `open_and_lock` include `_EXCL` but not `_CREAT`, the
`_EXCL` bit is intentionally ignored: the call is identical to the same call with
`_EXCL` cleared (for `_RDWR` an exclusive write-locked open of the existing file),
and in particular the flag combination is not itself rejected. -/
theorem c9_theorem (flags : BlobFlags) (p : String) (s : RegState)
    (h : flags.creat = false) :
    open_and_lock { flags with excl := true } p s =
      open_and_lock { flags with excl := false } p s := by
  apply open_and_lock_congr
  cases flags with
  | mk r w c e =>
    simp only at h
    subst h
    cases r <;> cases w <;> rfl

/-- **C9** (witness). A `_RDWR | _EXCL` open of an existing file: the `_CREAT` bit is
absent, and the call equals the plain `_RDWR` open (which succeeds with descriptor 0). -/
theorem c9_witness :
    (BlobFlags.mk false true false true).creat = false ∧
    (open_and_lock ⟨false, true, false, true⟩ "f" ⟨[], 0, ["f"]⟩ =
       open_and_lock ⟨false, true, false, false⟩ "f" ⟨[], 0, ["f"]⟩) ∧
    (open_and_lock ⟨false, true, false, true⟩ "f" ⟨[], 0, ["f"]⟩).1 = .ok 0 := by
  refine ⟨rfl, ?_, rfl⟩
  exact c9_theorem ⟨false, true, false, true⟩ "f" ⟨[], 0, ["f"]⟩ rfl

/-- `BLOBSTORE_FLAG_RDONLY`. -/
def rdFlags : BlobFlags := ⟨true, false, false, false⟩

/-- Repeatedly acquire the same path read-only (the lock stress scenario). -/
def openLoop (p : String) : Nat → RegState → RegState
  | 0, s => s
  | n + 1, s => openLoop p n (open_and_lock rdFlags p s).2

/-- Release a list of descriptors in order. -/
def closeLoop (fds : List Nat) (s : RegState) : RegState :=
  fds.foldl (fun s fd => (close_and_unlock fd s).2) s

/-- Fresh process state with a single pre-existing file `"p"`. -/
def regInit : RegState := ⟨[], 0, ["p"]⟩

/-- The state after 99 successful read-only `open_and_lock` calls on `"p"`. -/
def lockScenario : RegState := openLoop "p" BLOBSTORE_MAX_CONCURRENT regInit

/-- **C1** (counterexample). With all 99 descriptors of `"p"` held, the 100th
acquisition fails `TooManyOpen`; but after `close_and_unlock` of one of the held
descriptors (here descriptor 0) a subsequent `open_and_lock` on `"p"` still fails
`TooManyOpen`, because closing a descriptor marks its table slot unused without
ever shrinking `next_fd`, and the table is freed only when the holder count
reaches zero. -/
theorem c1_counterexample :
    ((lockScenario.locks.find? (fun l => l.path = "p")).map
        (fun l => (l.refs, l.slots.length, l.slots.all (fun sl => sl.2)))) =
      some (99, 99, true) ∧
    (open_and_lock rdFlags "p" lockScenario).1 = .error .MFILE ∧
    (close_and_unlock 0 lockScenario).1 = .ok () ∧
    (open_and_lock rdFlags "p" (close_and_unlock 0 lockScenario).2).1 = .error .MFILE :=
  ⟨rfl, rfl, rfl, rfl⟩

/-- **C1** (amended). Once `MAX_CONCURRENT` (99) descriptors for a path obtained
from `open_and_lock` are simultaneously recorded in the path's descriptor table,
the next `open_and_lock` on that path fails `TooManyOpen`; table slots are not
reclaimed by closing a single descriptor — only after `close_and_unlock` of every
held descriptor is the path's entry freed, after which a subsequent
`open_and_lock` on that path succeeds (shown on the 99-reader scenario: draining
all 99 descriptors removes the registry entry and a new open succeeds). -/
theorem c1_theorem :
    (∀ (s : RegState) (p : String) (flags : BlobFlags),
        decodeFlags flags ≠ none →
        (s.locks.find? (fun l => l.path = p)).map (fun l => l.slots.length) =
          some BLOBSTORE_MAX_CONCURRENT →
        (open_and_lock flags p s).1 = .error .MFILE) ∧
    (closeLoop (List.range BLOBSTORE_MAX_CONCURRENT) lockScenario).locks.find?
        (fun l => l.path = "p") = none ∧
    (open_and_lock rdFlags "p"
        (closeLoop (List.range BLOBSTORE_MAX_CONCURRENT) lockScenario)).1 = .ok 99 := by
  refine ⟨?_, rfl, rfl⟩
  intro s p flags h hfull
  obtain ⟨⟨lt, ofl⟩, hd⟩ := Option.ne_none_iff_exists'.mp h
  obtain ⟨l, hfind, hlen⟩ := Option.map_eq_some'.mp hfull
  simp [open_and_lock, hd, hfind, hlen]

/-- **C1** (witness). The full-table half of the amended claim applied to the
concrete 99-reader scenario. -/
theorem c1_witness :
    (open_and_lock rdFlags "p" lockScenario).1 = .error .MFILE :=
  c1_theorem.1 lockScenario "p" rdFlags (by decide) rfl

/-! ### The composition engine (`blockblob_clone`)
Validation first; then a pass that either copies a segment or extends the
device-mapper tables; finally, only when some segment was mapped or
snapshotted, device creation and `refs`/`deps` bookkeeping.  Results of the
external helpers (`dd`, `dmsetup`) and `stat` observations are explicit inputs. -/

def MIN_BLOCKS_SNAPSHOT : Nat := 32

/-- Modelled from the spec: `MAX_BLOCKMAP_SIZE` bounds the block-map array ("array
of up to `MAX_BLOCKMAP` entries"); the header defining the constant is not part of
the source tree, and only its positivity matters below. -/
def MAX_BLOCKMAP_SIZE : Nat := 32

/-- `blobstore_snapshot_t`. -/
inductive BlobstoreSnapshotT where
  | any | noSnap | dm
deriving DecidableEq, Repr

/-- `blockmap_relation_t`: `BLOBSTORE_COPY` / `BLOBSTORE_MAP` / `BLOBSTORE_SNAPSHOT`. -/
inductive BlobstoreRelationT where
  | copy | map | snapshot
deriving DecidableEq, Repr

/-- A source blockblob handle as `blockblob_clone` observes it: descriptor, the
`fstat`/`stat` results on its backing file and device, and its identity. -/
structure SourceBlob where
  fd : Int
  fstatOk : Bool
  stSizeBytes : Nat
  sizeBlocks : Nat
  devStat : Option Bool
  devicePath : String
  storePath : String
  id : String
deriving DecidableEq, Repr

/-- `blockmap_source_t` with the filesystem observations validation makes:
a device path (possibly null) with its `stat` result, a source blob (possibly
null), or the zero device. -/
inductive BlockmapSource where
  | device (path : Option String) (statBlk : Option Bool)
  | blob (b : Option SourceBlob)
  | zero
deriving DecidableEq, Repr

/-- One `blockmap` entry, plus the outcome of its `diskutil_dd2` copy should the
entry be executed as a copy. -/
structure BlockmapEntry where
  relation : BlobstoreRelationT
  source : BlockmapSource
  firstBlockSrc : Nat
  firstBlockDst : Nat
  lenBlocks : Nat
  copyOk : Bool
deriving DecidableEq, Repr

/-- The destination blob handle fields `blockblob_clone` uses. -/
structure CloneDst where
  id : String
  sizeBlocks : Nat
  devicePath : String
  dmName : String
  snapshotPolicy : BlobstoreSnapshotT
  storePath : String
deriving DecidableEq, Repr

/-- Outcomes of the external helpers invoked after validation. -/
structure CloneEnv where
  zeroOk : Bool
  dmCreateOk : Bool
  writeDmOk : Bool
  refsOk : Bool
  depsOk : Bool
deriving DecidableEq, Repr

/-- Validation of a single blockmap entry, in source order. -/
def clone_verify_entry (env : CloneEnv) (dst : CloneDst) (m : BlockmapEntry) :
    Option BlobstoreError :=
  if m.relation ≠ .copy ∧ dst.snapshotPolicy ≠ .dm then some .INVAL
  else
    match m.source with
    | .device p statBlk =>
      if p.isNone then some .INVAL
      else if statBlk.isNone then some .NOENT
      else if statBlk = some false then some .INVAL
      else none
    | .blob b =>
      match b with
      | none => some .INVAL
      | some sbb =>
        if sbb.fd = -1 then some .INVAL
        else if ¬ sbb.fstatOk then some .NOENT
        else if sbb.stSizeBytes / 512 < sbb.sizeBlocks then some .INVAL
        else if sbb.devStat.isNone then some .NOENT
        else if sbb.devStat = some false then some .INVAL
        else if sbb.sizeBlocks < m.firstBlockSrc + m.lenBlocks then some .INVAL
        else if dst.sizeBlocks < m.firstBlockDst + m.lenBlocks then some .INVAL
        else if m.relation = .snapshot ∧ m.lenBlocks < MIN_BLOCKS_SNAPSHOT then some .INVAL
        else none
    | .zero =>
      if m.relation ≠ .copy ∧ ¬ env.zeroOk then some .UNKNOWN
      else none

/-- The validation loop: first failing entry wins. -/
def clone_verify (env : CloneEnv) (dst : CloneDst) : List BlockmapEntry → Option BlobstoreError
  | [] => none
  | m :: rest =>
    match clone_verify_entry env dst m with
    | some e => some e
    | none => clone_verify env dst rest

/-- What `blockblob_clone` does to the world after validation. -/
inductive CloneEffect where
  | copy (src : Option String) (dstDev : String) (len firstDst firstSrc : Nat)
  | dmCreate (name : String) (table : String)
  | writeDmSidecar (names : List String)
  | refsAdd (storePath id entry : String)
  | depsAdd (storePath id entry : String)
deriving DecidableEq, Repr

def isCopyEffect : CloneEffect → Bool
  | .copy _ _ _ _ _ => true
  | _ => false

/-- `euca-<id>` with slashes replaced by hyphens. -/
def dmBase (id : String) : String :=
  String.map (fun c => if c = '/' then '-' else c) ("euca-" ++ id)

/-- Names starting with `e` are device-mapper names and get the `/dev/mapper/`
path prefix in tables (`dev[0]=='e' ? DM_PATH : ""`). -/
def dmPfx (d : String) : String :=
  if d.startsWith "e" then "/dev/mapper/" ++ d else d

def linearLine (start len : Nat) (dev : String) (off : Nat) : String :=
  toString start ++ " " ++ toString len ++ " linear " ++ dev ++ " " ++ toString off ++ "\n"

/-- Snapshot granularity: halve 16 until it divides `len_blocks`. -/
def granularity16 (len : Nat) : Nat :=
  if len % 16 = 0 then 16
  else if len % 8 = 0 then 8
  else if len % 4 = 0 then 4
  else if len % 2 = 0 then 2
  else 1

def isZeroSource : BlockmapSource → Bool
  | .zero => true
  | _ => false

/-- State of the copy-or-compute-tables pass. -/
structure CloneExecState where
  devices : List (String × String)
  mainTable : String
  mapped : Nat
  effects : List CloneEffect
deriving DecidableEq, Repr

/-- The copy-or-compute-tables pass over the block map (`i` is the entry index,
used in auxiliary device names). -/
def cloneExecLoop (dst : CloneDst) (base : String) (zeroDev : Option String) :
    List BlockmapEntry → Nat → CloneExecState → CloneExecState × Option BlobstoreError
  | [], _, st => (st, none)
  | m :: rest, i, st =>
    let dev : Option String :=
      match m.source with
      | .device p _ => p
      | .blob b => b.map (fun x => x.devicePath)
      | .zero => zeroDev
    match m.relation with
    | .copy =>
      if ¬ m.copyOk then (st, some .INVAL)
      else
        cloneExecLoop dst base zeroDev rest (i + 1)
          { st with
            effects := st.effects ++
              [.copy dev dst.devicePath m.lenBlocks m.firstBlockDst m.firstBlockSrc],
            mainTable := st.mainTable ++
              linearLine m.firstBlockDst m.lenBlocks dst.devicePath m.firstBlockDst }
    | .snapshot =>
      let g := granularity16 m.lenBlocks
      let back := base ++ "-p" ++ toString i ++ "-back"
      let st1 : CloneExecState := { st with devices := st.devices ++
        [(back, linearLine 0 m.lenBlocks dst.devicePath m.firstBlockDst)] }
      let useReal : Bool := decide (0 < m.firstBlockSrc) && ! isZeroSource m.source
      let real := base ++ "-p" ++ toString i ++ "-real"
      let st2 : CloneExecState :=
        if useReal then
          { st1 with devices := st1.devices ++
            [(real, linearLine 0 m.lenBlocks (dev.getD "") m.firstBlockSrc)] }
        else st1
      let sdev : String := if useReal then real else dev.getD ""
      let snap := base ++ "-p" ++ toString i ++ "-snap"
      let st3 : CloneExecState := { st2 with devices := st2.devices ++
        [(snap, "0 " ++ toString m.lenBlocks ++ " snapshot " ++ dmPfx sdev ++
          " /dev/mapper/" ++ back ++ " p " ++ toString g ++ "\n")] }
      cloneExecLoop dst base zeroDev rest (i + 1)
        { st3 with
          mainTable := st3.mainTable ++
            linearLine m.firstBlockDst m.lenBlocks (dmPfx snap) 0,
          mapped := st3.mapped + 1 }
    | .map =>
      cloneExecLoop dst base zeroDev rest (i + 1)
        { st with
          mainTable := st.mainTable ++
            linearLine m.firstBlockDst m.lenBlocks (dmPfx (dev.getD "")) m.firstBlockSrc,
          mapped := st.mapped + 1 }

/-- The `.refs`/`.deps` bookkeeping loop of the finalization phase. -/
def refsDepsLoop (env : CloneEnv) (dst : CloneDst) :
    List BlockmapEntry → List CloneEffect → List CloneEffect × Option BlobstoreError
  | [], eff => (eff, none)
  | m :: rest, eff =>
    match m.source with
    | .blob (some b) =>
      if m.relation = .copy then refsDepsLoop env dst rest eff
      else
        let eff1 := eff ++ [.refsAdd b.storePath b.id (dst.storePath ++ " " ++ dst.id)]
        if ¬ env.refsOk then (eff1, some .UNKNOWN)
        else
          let eff2 := eff1 ++ [.depsAdd dst.storePath dst.id (b.storePath ++ " " ++ b.id)]
          if ¬ env.depsOk then (eff2, some .UNKNOWN)
          else refsDepsLoop env dst rest eff2
    | _ => refsDepsLoop env dst rest eff

def hasZeroNonCopy (map : List BlockmapEntry) : Bool :=
  map.any (fun m => isZeroSource m.source && decide (m.relation ≠ .copy))

/-- The result of `blockblob_clone`: the C return value as an optional error, the
performed effects in order, and the destination handle afterwards. -/
structure CloneResult where
  err : Option BlobstoreError
  effects : List CloneEffect
  dst : CloneDst
deriving DecidableEq, Repr

/-- `blockblob_clone(bb, map, map_size)` for a non-null destination handle. -/
def blockblob_clone_model (env : CloneEnv) (dst : CloneDst) (map : List BlockmapEntry) :
    CloneResult :=
  if map.length < 1 ∨ map.length > MAX_BLOCKMAP_SIZE then ⟨some .INVAL, [], dst⟩
  else
    match clone_verify env dst map with
    | some e => ⟨some e, [], dst⟩
    | none =>
      let base := dmBase dst.id
      let zeroDev : Option String :=
        if hasZeroNonCopy map ∧ env.zeroOk then some "/dev/mapper/euca-zero" else none
      let (st, exErr) := cloneExecLoop dst base zeroDev map 0 ⟨[], "", 0, []⟩
      match exErr with
      | some e => ⟨some e, st.effects, dst⟩
      | none =>
        if st.mapped = 0 then ⟨none, st.effects, dst⟩
        else
          let allDevs := st.devices ++ [(base, st.mainTable)]
          let names := allDevs.map Prod.fst
          let dst' : CloneDst := { dst with dmName := base, devicePath := "/dev/mapper/" ++ base }
          let eff1 := st.effects ++ allDevs.map (fun d => CloneEffect.dmCreate d.1 d.2)
          if ¬ env.dmCreateOk then ⟨some .UNKNOWN, eff1, dst'⟩
          else
            let eff2 := eff1 ++ [.writeDmSidecar names]
            if ¬ env.writeDmOk then ⟨some .UNKNOWN, eff2, dst'⟩
            else
              let (eff3, refErr) := refsDepsLoop env dst map eff2
              ⟨refErr, eff3, dst'⟩

def cloneEnvOk : CloneEnv := ⟨true, true, true, true, true⟩

/-- A destination of 1 block. -/
def c2dst : CloneDst := ⟨"d", 1, "/dev/loop0", "", .dm, "/bs"⟩

/-- A `Copy` entry from the `Zero` source writing blocks 5..9 of the destination —
far beyond the destination's single block. -/
def c2zeroEntry : BlockmapEntry := ⟨.copy, .zero, 0, 5, 5, true⟩

/-- **C2** (counterexample). The destination bound is not validated for `Zero` (or
`Device`) sources: a map whose single `Zero`-source entry overruns the 1-block
destination by 9 blocks passes validation, and `blockblob_clone` proceeds to
perform the copy instead of failing `Invalid`. -/
theorem c2_counterexample :
    c2dst.sizeBlocks < c2zeroEntry.firstBlockDst + c2zeroEntry.lenBlocks ∧
    clone_verify cloneEnvOk c2dst [c2zeroEntry] = none ∧
    (blockblob_clone_model cloneEnvOk c2dst [c2zeroEntry]).err = none ∧
    (blockblob_clone_model cloneEnvOk c2dst [c2zeroEntry]).effects =
      [.copy none "/dev/loop0" 5 5 0] :=
  ⟨by decide, rfl, rfl, rfl⟩

theorem clone_verify_entry_blob_bound (env : CloneEnv) (dst : CloneDst)
    (m : BlockmapEntry) (b : SourceBlob) (hb : m.source = .blob (some b))
    (h : clone_verify_entry env dst m = none) :
    m.firstBlockDst + m.lenBlocks ≤ dst.sizeBlocks := by
  by_contra hlt
  push_neg at hlt
  simp only [clone_verify_entry, hb] at h
  repeat' split at h
  all_goals exact Option.noConfusion h

theorem clone_verify_blob_bounds (env : CloneEnv) (dst : CloneDst) :
    ∀ (map : List BlockmapEntry), clone_verify env dst map = none →
      ∀ m ∈ map, ∀ b, m.source = .blob (some b) →
        m.firstBlockDst + m.lenBlocks ≤ dst.sizeBlocks := by
  intro map
  induction map with
  | nil => intro _ m hm; exact absurd hm (List.not_mem_nil m)
  | cons x rest ih =>
    intro h m hm b hb
    unfold clone_verify at h
    cases he : clone_verify_entry env dst x with
    | some e => rw [he] at h; exact Option.noConfusion h
    | none =>
      rw [he] at h
      rcases List.mem_cons.mp hm with rfl | hmem
      · exact clone_verify_entry_blob_bound env dst m b hb he
      · exact ih h m hmem b hb

theorem clone_invalid_no_effects (env : CloneEnv) (dst : CloneDst)
    (map : List BlockmapEntry) (e : BlobstoreError)
    (h1 : 1 ≤ map.length) (h2 : map.length ≤ MAX_BLOCKMAP_SIZE)
    (h : clone_verify env dst map = some e) :
    blockblob_clone_model env dst map = ⟨some e, [], dst⟩ := by
  unfold blockblob_clone_model
  rw [if_neg (by omega), h]

/-- **C2** (amended). The destination bound `dst.size_blocks ≥ first_block_dst +
len_blocks` is validated only for entries whose source is a blockblob: whenever
validation succeeds every `Blob`-source entry satisfies the bound, and whenever
validation fails (in particular on a `Blob`-source entry violating the bound) the
call returns that error before performing any copy or creating any device-mapper
device.  `Device`- and `Zero`-source entries are not checked against the bound. -/
theorem c2_theorem :
    (∀ (env : CloneEnv) (dst : CloneDst) (map : List BlockmapEntry),
       clone_verify env dst map = none →
       ∀ m ∈ map, ∀ b, m.source = .blob (some b) →
         m.firstBlockDst + m.lenBlocks ≤ dst.sizeBlocks) ∧
    (∀ (env : CloneEnv) (dst : CloneDst) (map : List BlockmapEntry) (e : BlobstoreError),
       1 ≤ map.length → map.length ≤ MAX_BLOCKMAP_SIZE →
       clone_verify env dst map = some e →
       blockblob_clone_model env dst map = ⟨some e, [], dst⟩) :=
  ⟨clone_verify_blob_bounds, clone_invalid_no_effects⟩

/-- An open 10-block source blob backed by a 5120-byte file and a block device. -/
def c2srcBlob : SourceBlob := ⟨3, true, 5120, 10, some true, "/dev/loop1", "/bs", "src"⟩

/-- A valid `Map` entry of 8 blocks from `c2srcBlob`. -/
def c2goodEntry : BlockmapEntry := ⟨.map, .blob (some c2srcBlob), 0, 0, 8, true⟩

/-- A 10-block destination. -/
def c2dst10 : CloneDst := ⟨"d", 10, "/dev/loop0", "", .dm, "/bs"⟩

/-- A 5-block destination: `c2goodEntry` overruns it, so validation fails. -/
def c2dst5 : CloneDst := ⟨"d", 5, "/dev/loop0", "", .dm, "/bs"⟩

/-- **C2** (witness). Both halves of the amended claim at concrete inputs: a valid
map against a 10-block destination satisfies the bound, and the same map against a
5-block destination makes `blockblob_clone` fail `Invalid` with no effects. -/
theorem c2_witness :
    c2goodEntry.firstBlockDst + c2goodEntry.lenBlocks ≤ c2dst10.sizeBlocks ∧
    blockblob_clone_model cloneEnvOk c2dst5 [c2goodEntry] =
      ⟨some .INVAL, [], c2dst5⟩ :=
  ⟨c2_theorem.1 cloneEnvOk c2dst10 [c2goodEntry] rfl c2goodEntry (by decide)
      c2srcBlob rfl,
   c2_theorem.2 cloneEnvOk c2dst5 [c2goodEntry] .INVAL (by decide) (by decide) rfl⟩

theorem cloneExecLoop_copy_only (dst : CloneDst) (base : String) (zdev : Option String) :
    ∀ (ms : List BlockmapEntry) (i : Nat) (st : CloneExecState),
      (∀ m ∈ ms, m.relation = .copy) →
      st.effects.all isCopyEffect = true →
      (cloneExecLoop dst base zdev ms i st).1.mapped = st.mapped ∧
      (cloneExecLoop dst base zdev ms i st).1.effects.all isCopyEffect = true := by
  intro ms
  induction ms with
  | nil => intro i st _ hst; exact ⟨rfl, hst⟩
  | cons m rest ih =>
    intro i st hms hst
    have hm : m.relation = .copy := hms m (List.mem_cons_self m rest)
    have hrest : ∀ x ∈ rest, x.relation = .copy :=
      fun x hx => hms x (List.mem_cons_of_mem m hx)
    unfold cloneExecLoop
    rw [hm]
    by_cases hc : m.copyOk
    · simp only [hc, not_true_eq_false, if_false]
      exact ih (i + 1) _ hrest (by simp [List.all_append, hst, isCopyEffect])
    · simp only [hc, not_false_eq_true, if_true]
      exact ⟨rfl, hst⟩

/-- **C8**. For every `blockblob_clone` call whose block map contains only
`Copy`-relation entries, the call performs at most copies: no device-mapper
device is created, the destination's `dm` sidecar is not written, no `refs` or
`deps` sidecar is updated, and the destination handle (in particular its
`device_path` and `dm_name`) is left unchanged. -/
theorem c8_theorem (env : CloneEnv) (dst : CloneDst) (map : List BlockmapEntry)
    (h : ∀ m ∈ map, m.relation = .copy) :
    (blockblob_clone_model env dst map).effects.all isCopyEffect = true ∧
    (blockblob_clone_model env dst map).dst = dst := by
  unfold blockblob_clone_model
  split
  · exact ⟨rfl, rfl⟩
  · cases hv : clone_verify env dst map with
    | some e => exact ⟨rfl, rfl⟩
    | none =>
      have hloop := cloneExecLoop_copy_only dst (dmBase dst.id)
        (if hasZeroNonCopy map ∧ env.zeroOk then some "/dev/mapper/euca-zero" else none)
        map 0 ⟨[], "", 0, []⟩ h rfl
      rcases hl : cloneExecLoop dst (dmBase dst.id)
        (if hasZeroNonCopy map ∧ env.zeroOk then some "/dev/mapper/euca-zero" else none)
        map 0 ⟨[], "", 0, []⟩ with ⟨st, exErr⟩
      rw [hl] at hloop
      obtain ⟨hm, he⟩ := hloop
      simp only at hm
      cases exErr with
      | some e => simp [hl, he]
      | none => simp [hl, hm, he]

/-- **C8** (witness). A single-entry all-`Copy` map from an open source blob:
the clone succeeds, its only effect is the copy, and the destination handle is
unchanged. -/
theorem c8_witness :
    (blockblob_clone_model cloneEnvOk c2dst10
        [⟨.copy, .blob (some c2srcBlob), 0, 0, 8, true⟩]).effects.all isCopyEffect = true ∧
    (blockblob_clone_model cloneEnvOk c2dst10
        [⟨.copy, .blob (some c2srcBlob), 0, 0, 8, true⟩]).dst = c2dst10 :=
  c8_theorem cloneEnvOk c2dst10 [⟨.copy, .blob (some c2srcBlob), 0, 0, 8, true⟩]
    (by decide)

/-! ### Blob deletion and the NULL-handle guards
`delete_blockblob_files`, `loop_remove`, `blockblob_delete`, `blockblob_close`,
`blockblob_get_dev`, `blockblob_get_size`.  The derived in-use status and the
phases that only touch other blobs' sidecars are environment inputs. -/

/-- The derived in-use status bits (`BLOCKBLOB_STATUS_{OPENED,MAPPED,BACKED}`). -/
structure InUse where
  opened : Bool
  mapped : Bool
  backed : Bool
deriving DecidableEq, Repr

/-- The `blockblob` handle fields used by close/delete/get_dev/get_size. -/
structure BlockblobM where
  storePath : FsPath
  id : FsPath
  fd : Nat
  sizeBlocks : Nat
  devicePath : String
deriving DecidableEq, Repr

/-- Process state threaded through the blob lifecycle: the thread-local
`_blobstore_errno`, the filesystem, and the FileLock registry. -/
structure ModelState where
  lastErr : BlobstoreError
  fs : FS
  reg : RegState
deriving DecidableEq, Repr

/-- All six sidecar kinds, in unlink order. -/
def sidecarKinds : List BlockblobPathT := [.blocks, .dm, .deps, .loopback, .sig, .refs]

/-- The unlink loop of `delete_blockblob_files`: try deleting every sidecar,
counting successes. -/
def unlinkKinds (fmt : BlobstoreFormat) (bsPath id : FsPath) :
    List BlockblobPathT → FS → Nat × FS
  | [], fs => (0, fs)
  | k :: ks, fs =>
    let u := fs.unlink (set_blockblob_metadata_path fmt bsPath id k)
    let rest := unlinkKinds fmt bsPath id ks u.2
    ((if u.1 then 1 else 0) + rest.1, rest.2)

/-- The `rmdir` candidates of `delete_blockblob_files`: the nonempty leading
portions of `<store>/<id>` (plus, in the Directory layout, that path itself,
from the appended trailing slash), deepest first; the loop stops at the first
failure. -/
def dirCandidates (fmt : BlobstoreFormat) (bsPath id : FsPath) : List FsPath :=
  let full := bsPath ++ id
  let maxLen := if fmt = .directory then full.length else full.length - 1
  (List.range maxLen).reverse.map (fun n => full.take (n + 1))

/-- The ascending-`rmdir` loop: remove directories while `rmdir` succeeds,
counting successes, and stop at the first failure. -/
def rmdirLoop : List FsPath → FS → Nat × FS
  | [], fs => (0, fs)
  | d :: ds, fs =>
    let r := fs.rmdir d
    if r.1 then
      let rest := rmdirLoop ds r.2
      (rest.1 + 1, rest.2)
    else (0, fs)

/-- `delete_blockblob_files`: unlink every sidecar, then remove now-empty
parent directories bottom-up; returns how many files and directories went away. -/
def delete_blockblob_files (fmt : BlobstoreFormat) (bsPath id : FsPath) (fs : FS) :
    Nat × FS :=
  let u := unlinkKinds fmt bsPath id sidecarKinds fs
  let r := rmdirLoop (dirCandidates fmt bsPath id) u.2
  (u.1 + r.1, r.2)

/-- `loop_remove`: read the `loopback` sidecar; when it names a device, detach it
(outcome `unloopOk`) and on success unlink the sidecar. -/
def loop_remove_model (unloopOk : Bool) (fmt : BlobstoreFormat) (bsPath id : FsPath)
    (fs : FS) : Int × FS :=
  let p := set_blockblob_metadata_path fmt bsPath id .loopback
  match fs.getFile p with
  | none => (0, fs)
  | some c =>
    if c.length = 0 then (0, fs)
    else if ¬ unloopOk then (-1, fs)
    else (0, (fs.unlink p).2)

/-- Environment of one `blockblob_delete` call: store-lock outcome, the freshly
computed in-use status, the outcome of the `.dm`-device removal phase and of the
loopback detach, and the combined effect on other blobs' sidecars of the
`.refs`-update phase. -/
structure DeleteEnv where
  lockOk : Bool
  inUse : InUse
  dmRemoveOk : Bool
  unloopOk : Bool
  refsPhase : FS → FS

/-- `blockblob_delete(bb, timeout)`.  A null handle fails `Invalid` at once;
in-use bits other than OPENED/BACKED fail `Again`; then dm teardown, reference
cleanup, loopback detach, descriptor close, and `delete_blockblob_files`, whose
count must be positive for the call to succeed. -/
def blockblob_delete_model (env : DeleteEnv) (fmt : BlobstoreFormat) :
    Option BlockblobM → ModelState → Int × ModelState
  | none, st => (-1, { st with lastErr := .INVAL })
  | some bb, st =>
    if ¬ env.lockOk then (-1, { st with lastErr := .AGAIN })
    else if env.inUse.mapped then (-1, { st with lastErr := .AGAIN })
    else if ¬ env.dmRemoveOk then (-1, { st with lastErr := .UNKNOWN })
    else
      let lr := loop_remove_model env.unloopOk fmt bb.storePath bb.id (env.refsPhase st.fs)
      let cr := close_and_unlock bb.fd st.reg
      let del := delete_blockblob_files fmt bb.storePath bb.id lr.2
      let closeOk : Bool := match cr.1 with | .ok _ => true | .error _ => false
      let ret : Int := if lr.1 = 0 ∧ closeOk ∧ 1 ≤ del.1 then 0 else -1
      (ret, { st with fs := del.2, reg := cr.2 })

/-- Environment of one `blockblob_close` call. -/
structure CloseEnv where
  inUse : InUse
  unloopOk : Bool

/-- `blockblob_close(bb)`: null fails `Invalid`; otherwise detach the loopback
unless the blob is mapped or backed, then release the descriptor. -/
def blockblob_close_model (env : CloseEnv) (fmt : BlobstoreFormat) :
    Option BlockblobM → ModelState → Int × ModelState
  | none, st => (-1, { st with lastErr := .INVAL })
  | some bb, st =>
    let lr :=
      if ¬ (env.inUse.mapped || env.inUse.backed) then
        loop_remove_model env.unloopOk fmt bb.storePath bb.id st.fs
      else ((0 : Int), st.fs)
    let cr := close_and_unlock bb.fd st.reg
    let closeOk : Bool := match cr.1 with | .ok _ => true | .error _ => false
    let ret : Int := if lr.1 = 0 ∧ closeOk then 0 else -1
    (ret, { st with fs := lr.2, reg := cr.2 })

/-- `blockblob_get_dev(bb)`: null fails `Invalid` returning NULL. -/
def blockblob_get_dev_model : Option BlockblobM → ModelState → Option String × ModelState
  | none, st => (none, { st with lastErr := .INVAL })
  | some bb, st => (some bb.devicePath, st)

/-- `blockblob_get_size(bb)`: null fails `Invalid` returning 0. -/
def blockblob_get_size_model : Option BlockblobM → ModelState → Nat × ModelState
  | none, st => (0, { st with lastErr := .INVAL })
  | some bb, st => (bb.sizeBlocks, st)

/-- **C10**. On a NULL blockblob handle each of `blockblob_close`,
`blockblob_delete`, `blockblob_get_dev` and `blockblob_get_size` returns its
failure value (−1, −1, NULL, 0 respectively) and sets the thread-local last
error to `Invalid`, while leaving the filesystem and the lock registry — and
hence all store state — untouched, whatever the call's environment. -/
theorem c10_theorem (denv : DeleteEnv) (cenv : CloseEnv) (fmt : BlobstoreFormat)
    (st : ModelState) :
    blockblob_close_model cenv fmt none st = (-1, { st with lastErr := .INVAL }) ∧
    blockblob_delete_model denv fmt none st = (-1, { st with lastErr := .INVAL }) ∧
    blockblob_get_dev_model none st = (none, { st with lastErr := .INVAL }) ∧
    blockblob_get_size_model none st = (0, { st with lastErr := .INVAL }) :=
  ⟨rfl, rfl, rfl, rfl⟩

/-! ### Well-formed filesystems and facts about the deletion loops -/

/-- A well-formed filesystem: every nonempty strict leading portion of a file's
or directory's path is itself a present directory (decidably, for concrete
states). -/
def wfB (fs : FS) : Bool :=
  fs.files.all (fun f => (List.range f.1.length).all
    (fun n => n = 0 || decide (f.1.take n ∈ fs.dirs))) &&
  fs.dirs.all (fun d => (List.range d.length).all
    (fun n => n = 0 || decide (d.take n ∈ fs.dirs)))

theorem properLead_iff (q p : FsPath) :
    properLead q p = true ↔ q = p.take q.length ∧ q.length < p.length := by
  simp [properLead, List.isPrefixOf_iff_prefix, List.prefix_iff_eq_take]

theorem properLead_trans (q c p : FsPath) (h1 : properLead q c = true)
    (h2 : properLead c p = true) : properLead q p = true := by
  simp only [properLead, Bool.and_eq_true, List.isPrefixOf_iff_prefix,
    decide_eq_true_eq] at h1 h2 ⊢
  exact ⟨h1.1.trans h2.1, lt_trans h1.2 h2.2⟩

theorem wfB_file_lead {fs : FS} (h : wfB fs = true) {f : FsPath × String}
    (hf : f ∈ fs.files) (q : FsPath) (hq : q ≠ []) (hl : properLead q f.1 = true) :
    q ∈ fs.dirs := by
  rw [properLead_iff] at hl
  obtain ⟨hqe, hql⟩ := hl
  have h1 := (Bool.and_eq_true _ _).mp h |>.1
  rw [List.all_eq_true] at h1
  have h2 := h1 f hf
  rw [List.all_eq_true] at h2
  have h3 := h2 q.length (List.mem_range.mpr hql)
  rcases Bool.or_eq_true _ _ |>.mp h3 with h4 | h4
  · exact absurd (List.length_eq_zero.mp (by exact_mod_cast of_decide_eq_true h4)) hq
  · rw [← hqe] at h4
    exact of_decide_eq_true h4

theorem wfB_dir_lead {fs : FS} (h : wfB fs = true) {d : FsPath}
    (hd : d ∈ fs.dirs) (q : FsPath) (hq : q ≠ []) (hl : properLead q d = true) :
    q ∈ fs.dirs := by
  rw [properLead_iff] at hl
  obtain ⟨hqe, hql⟩ := hl
  have h1 := (Bool.and_eq_true _ _).mp h |>.2
  rw [List.all_eq_true] at h1
  have h2 := h1 d hd
  rw [List.all_eq_true] at h2
  have h3 := h2 q.length (List.mem_range.mpr hql)
  rcases Bool.or_eq_true _ _ |>.mp h3 with h4 | h4
  · exact absurd (List.length_eq_zero.mp (by exact_mod_cast of_decide_eq_true h4)) hq
  · rw [← hqe] at h4
    exact of_decide_eq_true h4

theorem wfB_of {fs : FS}
    (h1 : ∀ f ∈ fs.files, ∀ q : FsPath, q ≠ [] → properLead q f.1 = true → q ∈ fs.dirs)
    (h2 : ∀ d ∈ fs.dirs, ∀ q : FsPath, q ≠ [] → properLead q d = true → q ∈ fs.dirs) :
    wfB fs = true := by
  rw [wfB, Bool.and_eq_true]
  constructor
  · rw [List.all_eq_true]
    intro f hf
    rw [List.all_eq_true]
    intro n hn
    rw [List.mem_range] at hn
    rw [Bool.or_eq_true]
    by_cases h0 : n = 0
    · exact Or.inl (decide_eq_true (by exact_mod_cast h0))
    · refine Or.inr (decide_eq_true ?_)
      refine h1 f hf (f.1.take n) ?_ ?_
      · intro hnil
        have htk : (f.1.take n).length = n := List.length_take_of_le (le_of_lt hn)
        rw [hnil] at htk
        simp at htk
        omega
      · rw [properLead_iff]
        have hlen : (f.1.take n).length = n := List.length_take_of_le (le_of_lt hn)
        rw [hlen]
        exact ⟨rfl, hn⟩
  · rw [List.all_eq_true]
    intro d hd
    rw [List.all_eq_true]
    intro n hn
    rw [List.mem_range] at hn
    rw [Bool.or_eq_true]
    by_cases h0 : n = 0
    · exact Or.inl (decide_eq_true (by exact_mod_cast h0))
    · refine Or.inr (decide_eq_true ?_)
      refine h2 d hd (d.take n) ?_ ?_
      · intro hnil
        have htk : (d.take n).length = n := List.length_take_of_le (le_of_lt hn)
        rw [hnil] at htk
        simp at htk
        omega
      · rw [properLead_iff]
        have hlen : (d.take n).length = n := List.length_take_of_le (le_of_lt hn)
        rw [hlen]
        exact ⟨rfl, hn⟩

theorem wfB_unlink {fs : FS} (h : wfB fs = true) (p : FsPath) :
    wfB (fs.unlink p).2 = true := by
  refine wfB_of ?_ ?_
  · intro f hf q hq hl
    have hf' : f ∈ fs.files := by
      have := List.mem_filter.mp hf
      exact this.1
    exact wfB_file_lead h hf' q hq hl
  · intro d hd q hq hl
    exact wfB_dir_lead h hd q hq hl

theorem dirEmpty_false_of_subdir {fs : FS} {q e : FsPath} (he : e ∈ fs.dirs)
    (hl : properLead q e = true) : fs.dirEmpty q = false := by
  rw [FS.dirEmpty]
  rw [Bool.and_eq_false_iff]
  right
  rw [← Bool.not_eq_true, List.all_eq_true]
  intro hall
  have := hall e he
  simp [hl] at this

theorem dirEmpty_false_of_subfile {fs : FS} {q : FsPath} {f : FsPath × String}
    (hf : f ∈ fs.files) (hl : properLead q f.1 = true) : fs.dirEmpty q = false := by
  rw [FS.dirEmpty]
  rw [Bool.and_eq_false_iff]
  left
  rw [← Bool.not_eq_true, List.all_eq_true]
  intro hall
  have := hall f hf
  simp [hl] at this

theorem rmdir_fail {fs : FS} {d : FsPath} (h : (fs.rmdir d).1 = false) :
    (fs.rmdir d).2 = fs ∧ (d ∈ fs.dirs → fs.dirEmpty d = false) := by
  rw [FS.rmdir] at h ⊢
  by_cases hc : (decide (d ∈ fs.dirs) && fs.dirEmpty d) = true
  · rw [if_pos hc] at h
    exact absurd h (by simp)
  · rw [if_neg hc]
    refine ⟨rfl, fun hd => ?_⟩
    rw [Bool.and_eq_true] at hc
    push_neg at hc
    have := hc (decide_eq_true hd)
    exact Bool.not_eq_true _ |>.mp this

theorem rmdir_ok {fs : FS} {d : FsPath} (h : (fs.rmdir d).1 = true) :
    (fs.rmdir d).2 = { fs with dirs := fs.dirs.filter (fun e => ¬ e = d) } ∧
    d ∈ fs.dirs ∧ fs.dirEmpty d = true := by
  rw [FS.rmdir] at h ⊢
  by_cases hc : (decide (d ∈ fs.dirs) && fs.dirEmpty d) = true
  · rw [if_pos hc]
    rw [Bool.and_eq_true] at hc
    exact ⟨rfl, of_decide_eq_true hc.1, hc.2⟩
  · rw [if_neg hc] at h
    exact absurd h (by simp)

theorem wfB_rmdir {fs : FS} (h : wfB fs = true) (d : FsPath) :
    wfB (fs.rmdir d).2 = true := by
  by_cases hr : (fs.rmdir d).1 = true
  · obtain ⟨heq, hmem, hemp⟩ := rmdir_ok hr
    rw [heq]
    refine wfB_of ?_ ?_
    · intro f hf q hq hl
      have hf0 : f ∈ fs.files := hf
      have hq' : q ∈ fs.dirs := wfB_file_lead h hf0 q hq hl
      rw [List.mem_filter]
      refine ⟨hq', decide_eq_true ?_⟩
      intro hqd
      subst hqd
      have hfalse := @dirEmpty_false_of_subfile fs _ _ hf0 hl
      rw [hfalse] at hemp
      exact Bool.noConfusion hemp
    · intro e he q hq hl
      have he' : e ∈ fs.dirs := (List.mem_filter.mp he).1
      have hq' : q ∈ fs.dirs := wfB_dir_lead h he' q hq hl
      rw [List.mem_filter]
      refine ⟨hq', decide_eq_true ?_⟩
      intro hqd
      subst hqd
      have hfalse := @dirEmpty_false_of_subdir fs _ _ he' hl
      rw [hfalse] at hemp
      exact Bool.noConfusion hemp
  · rw [Bool.not_eq_true] at hr
    rw [(rmdir_fail hr).1]
    exact h

theorem rmdirLoop_files : ∀ (ds : List FsPath) (fs : FS),
    ((rmdirLoop ds fs).2).files = fs.files := by
  intro ds
  induction ds with
  | nil => intro fs; rfl
  | cons d ds ih =>
    intro fs
    rw [rmdirLoop]
    by_cases hr : (fs.rmdir d).1 = true
    · rw [if_pos hr]
      rw [ih (fs.rmdir d).2]
      by_cases hc : (decide (d ∈ fs.dirs) && fs.dirEmpty d) = true
      · rw [FS.rmdir, if_pos hc]
      · rw [FS.rmdir, if_neg hc]
    · rw [Bool.not_eq_true] at hr
      rw [if_neg (by rw [hr]; exact Bool.false_ne_true)]

theorem rmdirLoop_dirs_subset : ∀ (ds : List FsPath) (fs : FS) (d : FsPath),
    d ∈ ((rmdirLoop ds fs).2).dirs → d ∈ fs.dirs := by
  intro ds
  induction ds with
  | nil => intro fs d h; exact h
  | cons c ds ih =>
    intro fs d h
    rw [rmdirLoop] at h
    by_cases hr : (fs.rmdir c).1 = true
    · rw [if_pos hr] at h
      have h1 := ih (fs.rmdir c).2 d h
      obtain ⟨heq, _, _⟩ := rmdir_ok hr
      rw [heq] at h1
      exact (List.mem_filter.mp h1).1
    · rw [Bool.not_eq_true] at hr
      rw [if_neg (by rw [hr]; exact Bool.false_ne_true)] at h
      exact h

/-- After the stop-at-first-failure `rmdir` sweep over a chain of nested
directories whose deepest member is present, every chain member is either gone
or non-empty. -/
theorem rmdirLoop_post : ∀ (cs : List FsPath) (fs : FS),
    List.Pairwise (fun a b => properLead b a = true) cs →
    (∀ c ∈ cs, c ≠ []) →
    wfB fs = true →
    (∀ c, cs.head? = some c → c ∈ fs.dirs) →
    ∀ d ∈ cs, d ∈ ((rmdirLoop cs fs).2).dirs → ((rmdirLoop cs fs).2).dirEmpty d = false := by
  intro cs
  induction cs with
  | nil => intro fs _ _ _ _ d hd; exact absurd hd (List.not_mem_nil d)
  | cons c cs' ih =>
    intro fs hpw hne hwf hhead d hd hdin
    have hc : c ∈ fs.dirs := hhead c rfl
    rw [rmdirLoop] at hdin ⊢
    by_cases hr : (fs.rmdir c).1 = true
    · rw [if_pos hr] at hdin ⊢
      obtain ⟨heq, hmem, hemp⟩ := rmdir_ok hr
      rcases List.mem_cons.mp hd with rfl | hd'
      · exfalso
        have h1 := rmdirLoop_dirs_subset cs' (fs.rmdir d).2 d hdin
        rw [heq] at h1
        have := (List.mem_filter.mp h1).2
        simp at this
      · refine ih (fs.rmdir c).2 (List.pairwise_cons.mp hpw).2
          (fun x hx => hne x (List.mem_cons_of_mem c hx)) (wfB_rmdir hwf c) ?_ d hd' hdin
        intro c' hc'
        have hc'mem : c' ∈ cs' := by
          cases cs' with
          | nil => exact Option.noConfusion hc'
          | cons y ys =>
            rw [List.head?] at hc'
            have hcy : c' = y := (Option.some_inj.mp hc').symm
            rw [hcy]
            exact List.mem_cons_self y ys
        have hlead : properLead c' c = true := (List.pairwise_cons.mp hpw).1 c' hc'mem
        have hc'ne : c' ≠ [] := hne c' (List.mem_cons_of_mem c hc'mem)
        have hc'in : c' ∈ fs.dirs := wfB_dir_lead hwf hc c' hc'ne hlead
        rw [heq, List.mem_filter]
        refine ⟨hc'in, decide_eq_true ?_⟩
        intro hcc
        subst hcc
        rw [properLead_iff] at hlead
        omega
    · rw [Bool.not_eq_true] at hr
      rw [if_neg (by rw [hr]; exact Bool.false_ne_true)] at hdin ⊢
      obtain ⟨heq, hne'⟩ := rmdir_fail hr
      rcases List.mem_cons.mp hd with rfl | hd'
      · exact hne' hdin
      · have hlead : properLead d c = true := (List.pairwise_cons.mp hpw).1 d hd'
        exact dirEmpty_false_of_subdir hc hlead

theorem unlink_getFile_self (fs : FS) (p : FsPath) : ((fs.unlink p).2).getFile p = none := by
  rw [FS.unlink, FS.getFile]
  have : (fs.files.filter (fun e => ¬ e.1 = p)).find? (fun e => e.1 = p) = none := by
    rw [List.find?_eq_none]
    intro x hx
    have := (List.mem_filter.mp hx).2
    simpa using this
  rw [this]
  rfl

theorem unlink_getFile_none (fs : FS) (p q : FsPath) (h : fs.getFile q = none) :
    ((fs.unlink p).2).getFile q = none := by
  rw [FS.getFile] at h ⊢
  rw [Option.map_eq_none'] at h ⊢
  rw [List.find?_eq_none] at h ⊢
  intro x hx
  exact h x (List.mem_filter.mp hx).1

theorem unlink_dirs (fs : FS) (p : FsPath) : ((fs.unlink p).2).dirs = fs.dirs := rfl

theorem unlinkKinds_dirs (fmt : BlobstoreFormat) (bsPath id : FsPath) :
    ∀ (ks : List BlockblobPathT) (fs : FS),
      ((unlinkKinds fmt bsPath id ks fs).2).dirs = fs.dirs := by
  intro ks
  induction ks with
  | nil => intro fs; rfl
  | cons k ks ih =>
    intro fs
    rw [unlinkKinds]
    exact ih _

theorem unlinkKinds_getFile (fmt : BlobstoreFormat) (bsPath id : FsPath) :
    ∀ (ks : List BlockblobPathT) (fs : FS) (k : BlockblobPathT), k ∈ ks →
      ((unlinkKinds fmt bsPath id ks fs).2).getFile
        (set_blockblob_metadata_path fmt bsPath id k) = none := by
  intro ks
  induction ks with
  | nil => intro fs k hk; exact absurd hk (List.not_mem_nil k)
  | cons k0 ks ih =>
    intro fs k hk
    have hpres : ∀ (fs' : FS) (ks' : List BlockblobPathT) (q : FsPath),
        fs'.getFile q = none → ((unlinkKinds fmt bsPath id ks' fs').2).getFile q = none := by
      intro fs' ks'
      induction ks' generalizing fs' with
      | nil => intro q h; exact h
      | cons a as iha =>
        intro q h
        rw [unlinkKinds]
        exact iha _ q (unlink_getFile_none _ _ q h)
    rcases List.mem_cons.mp hk with rfl | hk'
    · rw [unlinkKinds]
      exact hpres _ ks _ (unlink_getFile_self fs _)
    · rw [unlinkKinds]
      exact ih _ k hk'

theorem unlinkKinds_wf (fmt : BlobstoreFormat) (bsPath id : FsPath) :
    ∀ (ks : List BlockblobPathT) (fs : FS), wfB fs = true →
      wfB ((unlinkKinds fmt bsPath id ks fs).2) = true := by
  intro ks
  induction ks with
  | nil => intro fs h; exact h
  | cons k ks ih =>
    intro fs h
    rw [unlinkKinds]
    exact ih _ (wfB_unlink h _)

theorem getFile_isSome_unlink {fs : FS} {p q : FsPath}
    (h : (((fs.unlink p).2).getFile q).isSome = true) : (fs.getFile q).isSome = true := by
  rw [FS.getFile, Option.isSome_map'] at h ⊢
  rw [List.find?_isSome] at h ⊢
  obtain ⟨x, hx, hpx⟩ := h
  exact ⟨x, (List.mem_filter.mp hx).1, hpx⟩

theorem unlinkKinds_pos (fmt : BlobstoreFormat) (bsPath id : FsPath) :
    ∀ (ks : List BlockblobPathT) (fs : FS), 1 ≤ (unlinkKinds fmt bsPath id ks fs).1 →
      ∃ k ∈ ks, (fs.getFile (set_blockblob_metadata_path fmt bsPath id k)).isSome = true := by
  intro ks
  induction ks with
  | nil => intro fs h; exact absurd h (by rw [unlinkKinds]; omega)
  | cons k0 ks ih =>
    intro fs h
    rw [unlinkKinds] at h
    by_cases hu : (fs.unlink (set_blockblob_metadata_path fmt bsPath id k0)).1 = true
    · refine ⟨k0, List.mem_cons_self k0 ks, ?_⟩
      rw [FS.unlink] at hu
      simp only [decide_eq_true_eq] at hu
      rw [FS.getFile, Option.isSome_map']
      exact hu
    · rw [Bool.not_eq_true] at hu
      rw [hu] at h
      simp only [Bool.false_eq_true, if_false, Nat.zero_add] at h
      obtain ⟨k', hk', hsome⟩ := ih _ h
      exact ⟨k', List.mem_cons_of_mem k0 hk', getFile_isSome_unlink hsome⟩

theorem wfB_loop_remove (unloopOk : Bool) (fmt : BlobstoreFormat) (bsPath id : FsPath)
    (fs : FS) (h : wfB fs = true) :
    wfB ((loop_remove_model unloopOk fmt bsPath id fs).2) = true := by
  cases hg : fs.getFile (set_blockblob_metadata_path fmt bsPath id .loopback) with
  | none => simp only [loop_remove_model, hg]; exact h
  | some c =>
    simp only [loop_remove_model, hg]
    by_cases hc : c.length = 0
    · rw [if_pos hc]
      exact h
    · rw [if_neg hc]
      by_cases hu : unloopOk = true
      · rw [if_neg (by simp [hu])]
        exact wfB_unlink h _
      · rw [if_pos (by simpa using hu)]
        exact h

theorem loop_remove_dirs (unloopOk : Bool) (fmt : BlobstoreFormat) (bsPath id : FsPath)
    (fs : FS) : ((loop_remove_model unloopOk fmt bsPath id fs).2).dirs = fs.dirs := by
  cases hg : fs.getFile (set_blockblob_metadata_path fmt bsPath id .loopback) with
  | none => simp only [loop_remove_model, hg]
  | some c =>
    simp only [loop_remove_model, hg]
    by_cases hc : c.length = 0
    · rw [if_pos hc]
    · rw [if_neg hc]
      by_cases hu : unloopOk = true
      · rw [if_neg (by simp [hu])]
        exact unlink_dirs fs _
      · rw [if_pos (by simpa using hu)]

theorem attachSuffix_concat (l : List String) (x sfx : String) :
    attachSuffix (l ++ [x]) sfx = l ++ [x ++ "." ++ sfx] := by
  induction l with
  | nil => rfl
  | cons a as ih =>
    cases as with
    | nil => rfl
    | cons b bs =>
      show a :: attachSuffix ((b :: bs) ++ [x]) sfx = a :: ((b :: bs) ++ [x ++ "." ++ sfx])
      rw [ih]

/-- The directory that holds a blob's sidecar files. -/
def dirP (fmt : BlobstoreFormat) (bsPath id : FsPath) : FsPath :=
  match fmt with
  | .directory => bsPath ++ id
  | .files => bsPath ++ id.dropLast

theorem sidecar_decomp (fmt : BlobstoreFormat) (bsPath id : FsPath) (k : BlockblobPathT)
    (hid : id ≠ []) :
    ∃ t, set_blockblob_metadata_path fmt bsPath id k = dirP fmt bsPath id ++ [t] := by
  cases fmt with
  | directory =>
    exact ⟨suffixOf k, by rw [set_blockblob_metadata_path, dirP, List.append_assoc]⟩
  | files =>
    rcases (List.eq_nil_or_concat id) with rfl | ⟨L, b, rfl⟩
    · exact absurd rfl hid
    · refine ⟨b ++ "." ++ suffixOf k, ?_⟩
      rw [set_blockblob_metadata_path, dirP, List.concat_eq_append, attachSuffix_concat]
      simp [List.append_assoc]

theorem dirCandidates_eq (fmt : BlobstoreFormat) (bsPath id : FsPath) (hid : id ≠ []) :
    dirCandidates fmt bsPath id =
      (List.range (dirP fmt bsPath id).length).reverse.map
        (fun n => (dirP fmt bsPath id).take (n + 1)) := by
  have hlen : (if fmt = .directory then (bsPath ++ id).length else (bsPath ++ id).length - 1)
      = (dirP fmt bsPath id).length := by
    cases fmt with
    | directory => rw [if_pos rfl, dirP]
    | files =>
      rw [if_neg (by intro hx; exact BlobstoreFormat.noConfusion hx), dirP]
      rw [List.length_append, List.length_append, List.length_dropLast]
      have : 0 < id.length := List.length_pos.mpr hid
      omega
  rw [dirCandidates, hlen]
  refine List.map_congr_left ?_
  intro n hn
  rw [List.mem_reverse, List.mem_range] at hn
  cases fmt with
  | directory => rw [dirP]
  | files =>
    rcases (List.eq_nil_or_concat id) with rfl | ⟨L, b, rfl⟩
    · exact absurd rfl hid
    · rw [List.concat_eq_append] at hn ⊢
      have hP : bsPath ++ (L ++ [b]) = (dirP .files bsPath (L ++ [b])) ++ [b] := by
        rw [dirP]
        simp [List.append_assoc]
      rw [hP]
      rw [List.take_append_of_le_length (by omega)]

theorem dirCandidates_ne_nil (fmt : BlobstoreFormat) (bsPath id : FsPath) (hid : id ≠ []) :
    ∀ c ∈ dirCandidates fmt bsPath id, c ≠ [] := by
  intro c hc
  rw [dirCandidates_eq fmt bsPath id hid] at hc
  rw [List.mem_map] at hc
  obtain ⟨n, hn, rfl⟩ := hc
  rw [List.mem_reverse, List.mem_range] at hn
  apply List.ne_nil_of_length_pos
  rw [List.length_take_of_le (by omega)]
  omega

theorem candidate_lead_sidecar (fmt : BlobstoreFormat) (bsPath id : FsPath)
    (hid : id ≠ []) (k : BlockblobPathT) :
    ∀ c ∈ dirCandidates fmt bsPath id,
      properLead c (set_blockblob_metadata_path fmt bsPath id k) = true := by
  intro c hc
  obtain ⟨t, ht⟩ := sidecar_decomp fmt bsPath id k hid
  rw [dirCandidates_eq fmt bsPath id hid] at hc
  rw [List.mem_map] at hc
  obtain ⟨n, hn, rfl⟩ := hc
  rw [List.mem_reverse, List.mem_range] at hn
  rw [ht, properLead, Bool.and_eq_true, List.isPrefixOf_iff_prefix]
  constructor
  · exact ( List.take_prefix _ _).trans (List.prefix_append _ _)
  · rw [decide_eq_true_eq, List.length_append, List.length_take_of_le (by omega)]
    simp
    omega

theorem dirCandidates_pairwise (fmt : BlobstoreFormat) (bsPath id : FsPath) :
    List.Pairwise (fun a b => properLead b a = true) (dirCandidates fmt bsPath id) := by
  rw [dirCandidates]
  have hml : (if fmt = .directory then (bsPath ++ id).length else (bsPath ++ id).length - 1)
      ≤ (bsPath ++ id).length := by split <;> omega
  rw [List.pairwise_map, List.pairwise_reverse]
  refine List.Pairwise.imp_of_mem ?_ (List.pairwise_lt_range _)
  intro a b ha hb hab
  rw [List.mem_range] at ha hb
  rw [properLead, Bool.and_eq_true, List.isPrefixOf_iff_prefix]
  constructor
  · have : ((bsPath ++ id).take (b + 1)).take (a + 1) = (bsPath ++ id).take (a + 1) := by
      rw [List.take_take]
      congr 1
      omega
    rw [← this]
    exact List.take_prefix _ _
  · rw [decide_eq_true_eq]
    rw [List.length_take_of_le (by omega), List.length_take_of_le (by omega)]
    omega

theorem getFile_congr_files {fs1 fs2 : FS} (h : fs1.files = fs2.files) (q : FsPath) :
    fs1.getFile q = fs2.getFile q := by
  rw [FS.getFile, FS.getFile, h]

theorem getFile_isSome_exists {fs : FS} {q : FsPath}
    (h : (fs.getFile q).isSome = true) : ∃ f ∈ fs.files, f.1 = q := by
  rw [FS.getFile, Option.isSome_map', List.find?_isSome] at h
  obtain ⟨x, hx, hpx⟩ := h
  exact ⟨x, hx, of_decide_eq_true hpx⟩

theorem sidecarKinds_complete (k : BlockblobPathT) : k ∈ sidecarKinds := by
  cases k <;> simp [sidecarKinds]

/-- Shape of a successful `blockblob_delete`: the guards passed, the final
filesystem is the one left by `delete_blockblob_files`, and that call deleted at
least one file or directory. -/
theorem delete_success_shape (env : DeleteEnv) (fmt : BlobstoreFormat) (bb : BlockblobM)
    (st : ModelState) (hsucc : (blockblob_delete_model env fmt (some bb) st).1 = 0) :
    ((blockblob_delete_model env fmt (some bb) st).2).fs =
      (rmdirLoop (dirCandidates fmt bb.storePath bb.id)
        ((unlinkKinds fmt bb.storePath bb.id sidecarKinds
          ((loop_remove_model env.unloopOk fmt bb.storePath bb.id
            (env.refsPhase st.fs)).2)).2)).2 ∧
    1 ≤ (unlinkKinds fmt bb.storePath bb.id sidecarKinds
          ((loop_remove_model env.unloopOk fmt bb.storePath bb.id
            (env.refsPhase st.fs)).2)).1 +
        (rmdirLoop (dirCandidates fmt bb.storePath bb.id)
          ((unlinkKinds fmt bb.storePath bb.id sidecarKinds
            ((loop_remove_model env.unloopOk fmt bb.storePath bb.id
              (env.refsPhase st.fs)).2)).2)).1 := by
  by_cases h1 : env.lockOk = true
  · by_cases h2 : env.inUse.mapped = true
    · exfalso
      simp [blockblob_delete_model, h1, h2] at hsucc
    · by_cases h3 : env.dmRemoveOk = true
      · simp only [blockblob_delete_model, h1, h2, h3, not_true_eq_false, if_false,
          Bool.false_eq_true, if_true, not_false_eq_true] at hsucc ⊢
        rw [delete_blockblob_files] at hsucc ⊢
        constructor
        · rfl
        · by_cases hcond : ((loop_remove_model env.unloopOk fmt bb.storePath bb.id
              (env.refsPhase st.fs)).1 = 0 ∧
              (match (close_and_unlock bb.fd st.reg).1 with
               | .ok _ => true | .error _ => false) = true ∧
              1 ≤ (unlinkKinds fmt bb.storePath bb.id sidecarKinds
                    ((loop_remove_model env.unloopOk fmt bb.storePath bb.id
                      (env.refsPhase st.fs)).2)).1 +
                  (rmdirLoop (dirCandidates fmt bb.storePath bb.id)
                    ((unlinkKinds fmt bb.storePath bb.id sidecarKinds
                      ((loop_remove_model env.unloopOk fmt bb.storePath bb.id
                        (env.refsPhase st.fs)).2)).2)).1)
          · exact hcond.2.2
          · exfalso
            rw [if_neg hcond] at hsucc
            exact absurd hsucc (by decide)
      · exfalso
        simp [blockblob_delete_model, h1, h2, h3] at hsucc
  · exfalso
    simp [blockblob_delete_model, h1] at hsucc

/-- **C4**.  In a well-formed filesystem (every strict parent of a present file
or directory is a present directory), if `blockblob_delete` returns success then
afterwards none of the six sidecar files of the blob's id exist, and every
directory of the blob's nested path is either removed or no longer empty — i.e.
any now-empty directory created for the blob's nested path has been removed.
The reference-cleanup phase, which touches only other blobs' sidecars, is an
arbitrary well-formedness-preserving filesystem transformation. -/
theorem c4_theorem (env : DeleteEnv) (fmt : BlobstoreFormat) (bb : BlockblobM)
    (st : ModelState) (hid : bb.id ≠ []) (hwf : wfB st.fs = true)
    (hrp : ∀ fs, wfB fs = true → wfB (env.refsPhase fs) = true)
    (hsucc : (blockblob_delete_model env fmt (some bb) st).1 = 0) :
    (∀ k : BlockblobPathT,
      ((blockblob_delete_model env fmt (some bb) st).2).fs.getFile
        (set_blockblob_metadata_path fmt bb.storePath bb.id k) = none) ∧
    (∀ d ∈ dirCandidates fmt bb.storePath bb.id,
      d ∈ ((blockblob_delete_model env fmt (some bb) st).2).fs.dirs →
      ((blockblob_delete_model env fmt (some bb) st).2).fs.dirEmpty d = false) := by
  obtain ⟨hfs, hcnt⟩ := delete_success_shape env fmt bb st hsucc
  have hwfL : wfB ((loop_remove_model env.unloopOk fmt bb.storePath bb.id
      (env.refsPhase st.fs)).2) = true :=
    wfB_loop_remove _ _ _ _ _ (hrp _ hwf)
  have hwfU : wfB ((unlinkKinds fmt bb.storePath bb.id sidecarKinds
      ((loop_remove_model env.unloopOk fmt bb.storePath bb.id
        (env.refsPhase st.fs)).2)).2) = true :=
    unlinkKinds_wf _ _ _ _ _ hwfL
  constructor
  · intro k
    rw [hfs]
    rw [getFile_congr_files (rmdirLoop_files _ _) _]
    exact unlinkKinds_getFile fmt bb.storePath bb.id sidecarKinds _ k (sidecarKinds_complete k)
  · intro d hd hdin
    rw [hfs] at hdin ⊢
    by_cases hc0 : ∀ c, (dirCandidates fmt bb.storePath bb.id).head? = some c →
        c ∈ ((unlinkKinds fmt bb.storePath bb.id sidecarKinds
          ((loop_remove_model env.unloopOk fmt bb.storePath bb.id
            (env.refsPhase st.fs)).2)).2).dirs
    · exact rmdirLoop_post (dirCandidates fmt bb.storePath bb.id) _
        (dirCandidates_pairwise fmt bb.storePath bb.id)
        (dirCandidates_ne_nil fmt bb.storePath bb.id hid) hwfU hc0 d hd hdin
    · exfalso
      push_neg at hc0
      obtain ⟨c0, hh, hc0out⟩ := hc0
      obtain ⟨rest, hcs⟩ : ∃ rest, dirCandidates fmt bb.storePath bb.id = c0 :: rest := by
        cases hx : dirCandidates fmt bb.storePath bb.id with
        | nil => rw [hx] at hh; exact Option.noConfusion hh
        | cons y ys =>
          rw [hx, List.head?] at hh
          exact ⟨ys, by rw [Option.some_inj.mp hh]⟩
      have hrmfail : ((((unlinkKinds fmt bb.storePath bb.id sidecarKinds
          ((loop_remove_model env.unloopOk fmt bb.storePath bb.id
            (env.refsPhase st.fs)).2)).2)).rmdir c0).1 = false := by
        rw [FS.rmdir]
        rw [if_neg ?_]
        intro hcc
        rw [Bool.and_eq_true] at hcc
        exact hc0out (of_decide_eq_true hcc.1)
      have hloop0 : (rmdirLoop (dirCandidates fmt bb.storePath bb.id)
          ((unlinkKinds fmt bb.storePath bb.id sidecarKinds
            ((loop_remove_model env.unloopOk fmt bb.storePath bb.id
              (env.refsPhase st.fs)).2)).2)).1 = 0 := by
        rw [hcs, rmdirLoop]
        rw [if_neg (by rw [hrmfail]; exact Bool.false_ne_true)]
      rw [hloop0] at hcnt
      obtain ⟨k, _, hsome⟩ := unlinkKinds_pos fmt bb.storePath bb.id sidecarKinds
        ((loop_remove_model env.unloopOk fmt bb.storePath bb.id (env.refsPhase st.fs)).2)
        (by omega)
      obtain ⟨f, hf, hfq⟩ := getFile_isSome_exists hsome
      have hc0mem : c0 ∈ dirCandidates fmt bb.storePath bb.id := by
        rw [hcs]; exact List.mem_cons_self c0 rest
      have hlead : properLead c0 f.1 = true := by
        rw [hfq]
        exact candidate_lead_sidecar fmt bb.storePath bb.id hid k c0 hc0mem
      have hc0ne : c0 ≠ [] := dirCandidates_ne_nil fmt bb.storePath bb.id hid c0 hc0mem
      have hc0in : c0 ∈ ((loop_remove_model env.unloopOk fmt bb.storePath bb.id
          (env.refsPhase st.fs)).2).dirs :=
        wfB_file_lead hwfL hf c0 hc0ne hlead
      rw [← unlinkKinds_dirs fmt bb.storePath bb.id sidecarKinds
        ((loop_remove_model env.unloopOk fmt bb.storePath bb.id
          (env.refsPhase st.fs)).2)] at hc0in
      exact hc0out hc0in

/-- A tiny well-formed store: all six sidecars of blob `b` under store `bs` in the
Files layout, the store directory, and a registry entry holding descriptor 0. -/
def delFS : FS :=
  ⟨[(["bs", "b.blocks"], ""), (["bs", "b.dm"], ""), (["bs", "b.deps"], ""),
    (["bs", "b.loopback"], ""), (["bs", "b.sig"], ""), (["bs", "b.refs"], "")],
   [["bs"]]⟩

def delReg : RegState := ⟨[⟨"bs/b.blocks", .wr, 1, [(0, true)], 0, true⟩], 1, []⟩

def delBB : BlockblobM := ⟨["bs"], ["b"], 0, 10, "/dev/loop0"⟩

def delEnv : DeleteEnv := ⟨true, ⟨false, false, false⟩, true, true, fun fs => fs⟩

def delSt : ModelState := ⟨.OK, delFS, delReg⟩

/-- **C4** (witness). Deleting blob `b` of the concrete store succeeds, and
afterwards no sidecar of `b` exists and no empty directory of its path remains. -/
theorem c4_witness :
    (∀ k : BlockblobPathT,
      ((blockblob_delete_model delEnv .files (some delBB) delSt).2).fs.getFile
        (set_blockblob_metadata_path .files delBB.storePath delBB.id k) = none) ∧
    (∀ d ∈ dirCandidates .files delBB.storePath delBB.id,
      d ∈ ((blockblob_delete_model delEnv .files (some delBB) delSt).2).fs.dirs →
      ((blockblob_delete_model delEnv .files (some delBB) delSt).2).fs.dirEmpty d = false) :=
  c4_theorem delEnv .files delBB delSt (by decide) (by decide) (fun _ h => h) (by decide)

/-! ### LRU revocation (`compare_bbs`, `purge_blockblobs_lru`)
`qsort` is modelled by its postcondition: the processed list is some permutation
of the scanned blobs that is pairwise ordered by the comparator.  The comparator
truncates the 64-bit difference of modification times to a C `int`. -/

/-- A scanned blob summary (`blockblob` fields used by the LRU sweep). -/
structure BBSummary where
  id : FsPath
  sizeBlocks : Int
  lastModified : Int
  inUse : InUse
deriving DecidableEq, Repr

/-- Truncation of a 64-bit value to a signed 32-bit `int`. -/
def wrap32 (x : Int) : Int := (x + 2 ^ 31) % 2 ^ 32 - 2 ^ 31

/-- `compare_bbs`: the difference of `last_modified` values, cast to `int`. -/
def compare_bbs (a b : BBSummary) : Int := wrap32 (a.lastModified - b.lastModified)

/-- A blob is purgeable when its in-use status has no bit other than BACKED
(`!(bb->in_use & ~BLOCKBLOB_STATUS_BACKED)`). -/
def purgeable (bb : BBSummary) : Bool := ! (bb.inUse.opened || bb.inUse.mapped)

/-- The purge loop without its stopping condition: delete every purgeable blob
via `delete_blockblob_files`, counting the blocks of those whose deletion
removed something. -/
def purge_sweep (fmt : BlobstoreFormat) (bsPath : FsPath) :
    List BBSummary → FS → Int × List BBSummary × FS
  | [], fs => (0, [], fs)
  | bb :: rest, fs =>
    if purgeable bb then
      let d := delete_blockblob_files fmt bsPath bb.id fs
      if 1 ≤ d.1 then
        let r := purge_sweep fmt bsPath rest d.2
        (bb.sizeBlocks + r.1, bb :: r.2.1, r.2.2)
      else purge_sweep fmt bsPath rest d.2
    else purge_sweep fmt bsPath rest fs

/-- The purge loop of `purge_blockblobs_lru`: process each candidate in order
(deleting it when purgeable and counting reclaimed blocks when the deletion
removed something), and break as soon as the reclaimed total reaches
`need_blocks` — checked after each candidate. -/
def purge_run (fmt : BlobstoreFormat) (bsPath : FsPath) (need : Int) :
    List BBSummary → Int → FS → Int × List BBSummary × FS
  | [], purged, fs => (purged, [], fs)
  | bb :: rest, purged, fs =>
    if purgeable bb then
      let d := delete_blockblob_files fmt bsPath bb.id fs
      if 1 ≤ d.1 then
        if need ≤ purged + bb.sizeBlocks then (purged + bb.sizeBlocks, [bb], d.2)
        else
          let r := purge_run fmt bsPath need rest (purged + bb.sizeBlocks) d.2
          (r.1, bb :: r.2.1, r.2.2)
      else
        if need ≤ purged then (purged, [], d.2)
        else purge_run fmt bsPath need rest purged d.2
    else
      if need ≤ purged then (purged, [], fs)
      else purge_run fmt bsPath need rest purged fs

/-- `purge_blockblobs_lru(bs, bb_list, need_blocks)` applied to the qsorted
candidate array: returns the reclaimed total, the deleted summaries in
processing order, and the filesystem afterwards. -/
def purge_blockblobs_lru_model (fmt : BlobstoreFormat) (bsPath : FsPath)
    (sorted : List BBSummary) (need : Int) (fs : FS) : Int × List BBSummary × FS :=
  purge_run fmt bsPath need sorted 0 fs

/-- A purgeable blob modified at second `2^31 + 1` (its sidecar present). -/
def bbLate : BBSummary := ⟨["a"], 10, 2 ^ 31 + 1, ⟨false, false, false⟩⟩

/-- A purgeable blob modified at second 0. -/
def bbEarly : BBSummary := ⟨["b"], 10, 0, ⟨false, false, false⟩⟩

/-- A store holding the data files of both blobs. -/
def purgeFS : FS := ⟨[(["bs", "a.blocks"], ""), (["bs", "b.blocks"], "")], [["bs"]]⟩

/-- **C3** (counterexample). The comparator truncates the 64-bit `last_modified`
difference to `int`: with modification times `2^31+1` and `0` the sign flips, so
every comparator-sorted permutation of the two purgeable blobs puts the
later-modified one first, and the purge (needing 10 blocks) deletes it and
stops — whereas processing in ascending `last_modified` order (what the claim
states) would delete the other blob. -/
theorem c3_counterexample :
    compare_bbs bbLate bbEarly < 0 ∧
    bbEarly.lastModified < bbLate.lastModified ∧
    (∀ l : List BBSummary, l.Perm [bbLate, bbEarly] →
      l.Pairwise (fun x y => compare_bbs x y ≤ 0) → l = [bbLate, bbEarly]) ∧
    (purge_blockblobs_lru_model .files ["bs"] [bbLate, bbEarly] 10 purgeFS).2.1 =
      [bbLate] ∧
    (purge_blockblobs_lru_model .files ["bs"] [bbEarly, bbLate] 10 purgeFS).2.1 =
      [bbEarly] := by
  refine ⟨by decide, by decide, ?_, by decide, by decide⟩
  intro l hperm hpw
  cases l with
  | nil => exact absurd hperm.length_eq (by simp)
  | cons u l1 =>
    cases l1 with
    | nil => exact absurd hperm.length_eq (by simp)
    | cons v l2 =>
      cases l2 with
      | cons w l3 => exact absurd hperm.length_eq (by simp)
      | nil =>
        have hu : u ∈ [bbLate, bbEarly] := hperm.mem_iff.mp (by simp)
        have hv : v ∈ [bbLate, bbEarly] := hperm.mem_iff.mp (by simp)
        simp only [List.mem_cons, List.mem_singleton, List.not_mem_nil, or_false] at hu hv
        rcases hu with rfl | rfl
        · rcases hv with rfl | rfl
          · exact absurd (hperm.count_eq bbEarly) (by decide)
          · rfl
        · rcases hv with rfl | rfl
          · have hcmp := (List.pairwise_cons.mp hpw).1 bbLate (List.mem_cons_self bbLate [])
            exact absurd hcmp (by decide)
          · exact absurd (hperm.count_eq bbLate) (by decide)

theorem wrap32_eq_self (x : Int) (h1 : -(2 ^ 31) ≤ x) (h2 : x < 2 ^ 31) :
    wrap32 x = x := by
  rw [wrap32]
  omega

theorem purge_sweep_facts (fmt : BlobstoreFormat) (bsPath : FsPath) :
    ∀ (p : List BBSummary) (fs : FS),
      (∀ x ∈ (purge_sweep fmt bsPath p fs).2.1, purgeable x = true ∧ x ∈ p) ∧
      (purge_sweep fmt bsPath p fs).1 =
        ((purge_sweep fmt bsPath p fs).2.1.map (fun x => x.sizeBlocks)).sum := by
  intro p
  induction p with
  | nil =>
    intro fs
    exact ⟨fun x hx => absurd hx (List.not_mem_nil x), by simp [purge_sweep]⟩
  | cons bb rest ih =>
    intro fs
    by_cases hpg : purgeable bb = true
    · by_cases hd : 1 ≤ (delete_blockblob_files fmt bsPath bb.id fs).1
      · constructor
        · intro x hx
          simp only [purge_sweep, hpg, if_true, hd, if_pos] at hx
          rcases List.mem_cons.mp hx with rfl | hx'
          · exact ⟨hpg, List.mem_cons_self x rest⟩
          · obtain ⟨h1, h2⟩ := (ih _).1 x hx'
            exact ⟨h1, List.mem_cons_of_mem bb h2⟩
        · simp only [purge_sweep, hpg, if_true, hd, if_pos, List.map_cons, List.sum_cons]
          rw [(ih _).2]
      · constructor
        · intro x hx
          simp only [purge_sweep, hpg, if_true, hd, if_false] at hx
          obtain ⟨h1, h2⟩ := (ih _).1 x hx
          exact ⟨h1, List.mem_cons_of_mem bb h2⟩
        · simp only [purge_sweep, hpg, if_true, hd, if_false]
          exact (ih _).2
    · constructor
      · intro x hx
        simp only [purge_sweep] at hx
        rw [if_neg hpg] at hx
        obtain ⟨h1, h2⟩ := (ih _).1 x hx
        exact ⟨h1, List.mem_cons_of_mem bb h2⟩
      · simp only [purge_sweep]
        rw [if_neg hpg]
        exact (ih _).2

theorem purge_run_char (fmt : BlobstoreFormat) (bsPath : FsPath) (need : Int) :
    ∀ (l : List BBSummary) (purged : Int) (fs : FS), purged < need →
      ∃ p s, l = p ++ s ∧
        purge_run fmt bsPath need l purged fs =
          (purged + (purge_sweep fmt bsPath p fs).1,
           (purge_sweep fmt bsPath p fs).2.1,
           (purge_sweep fmt bsPath p fs).2.2) ∧
        (s ≠ [] → need ≤ purged + (purge_sweep fmt bsPath p fs).1) ∧
        (∀ p₀ x, p = p₀ ++ [x] → purged + (purge_sweep fmt bsPath p₀ fs).1 < need) := by
  intro l
  induction l with
  | nil =>
    intro purged fs _
    refine ⟨[], [], rfl, by simp [purge_run, purge_sweep], fun h => absurd rfl h, ?_⟩
    intro p₀ x h
    exact absurd h (by simp)
  | cons bb rest ih =>
    intro purged fs hp
    by_cases hpg : purgeable bb = true
    · by_cases hd : 1 ≤ (delete_blockblob_files fmt bsPath bb.id fs).1
      · by_cases hneed : need ≤ purged + bb.sizeBlocks
        · refine ⟨[bb], rest, rfl, ?_, fun _ => by
            simp only [purge_sweep, hpg, if_true]
            rw [if_pos hd]
            simp only [purge_sweep]
            omega, ?_⟩
          · simp only [purge_run, purge_sweep, hpg, if_true]
            rw [if_pos hd, if_pos hd, if_pos hneed]
            simp only [purge_sweep]
            rw [Prod.mk.injEq, Prod.mk.injEq]
            exact ⟨by omega, rfl, rfl⟩
          · intro p₀ x hx
            cases p₀ with
            | nil =>
              simp only [purge_sweep]
              omega
            | cons a as =>
              exfalso
              have hlen := congrArg List.length hx
              simp at hlen
        · obtain ⟨p', s', hsplit, heq, hstop, hmin⟩ :=
            ih (purged + bb.sizeBlocks) (delete_blockblob_files fmt bsPath bb.id fs).2
              (by omega)
          refine ⟨bb :: p', s', by rw [hsplit, List.cons_append], ?_, ?_, ?_⟩
          · simp only [purge_run, purge_sweep, hpg, if_true]
            rw [if_pos hd, if_pos hd, if_neg hneed, heq]
            rw [Prod.mk.injEq, Prod.mk.injEq]
            exact ⟨by omega, rfl, rfl⟩
          · intro hs
            have hst := hstop hs
            simp only [purge_sweep, hpg, if_true]
            rw [if_pos hd]
            omega
          · intro p₀ x hx
            cases p₀ with
            | nil =>
              simp only [purge_sweep]
              omega
            | cons a as =>
              rw [List.cons_append] at hx
              injection hx with h1 h2
              subst h1
              have hm := hmin as x h2
              simp only [purge_sweep, hpg, if_true]
              rw [if_pos hd]
              omega
      · obtain ⟨p', s', hsplit, heq, hstop, hmin⟩ :=
          ih purged (delete_blockblob_files fmt bsPath bb.id fs).2 hp
        refine ⟨bb :: p', s', by rw [hsplit, List.cons_append], ?_, ?_, ?_⟩
        · simp only [purge_run, purge_sweep, hpg, if_true]
          rw [if_neg hd, if_neg hd, if_neg (by omega : ¬ need ≤ purged), heq]
        · intro hs
          have hst := hstop hs
          simp only [purge_sweep, hpg, if_true]
          rw [if_neg hd]
          exact hst
        · intro p₀ x hx
          cases p₀ with
          | nil =>
            simp only [purge_sweep]
            omega
          | cons a as =>
            rw [List.cons_append] at hx
            injection hx with h1 h2
            subst h1
            have hm := hmin as x h2
            simp only [purge_sweep, hpg, if_true]
            rw [if_neg hd]
            exact hm
    · obtain ⟨p', s', hsplit, heq, hstop, hmin⟩ := ih purged fs hp
      refine ⟨bb :: p', s', by rw [hsplit, List.cons_append], ?_, ?_, ?_⟩
      · simp only [purge_run, purge_sweep]
        rw [if_neg hpg, if_neg hpg, if_neg (by omega : ¬ need ≤ purged), heq]
      · intro hs
        have hst := hstop hs
        simp only [purge_sweep]
        rw [if_neg hpg]
        exact hst
      · intro p₀ x hx
        cases p₀ with
        | nil =>
          simp only [purge_sweep]
          omega
        | cons a as =>
          rw [List.cons_append] at hx
          injection hx with h1 h2
          subst h1
          have hm := hmin as x h2
          simp only [purge_sweep]
          rw [if_neg hpg]
          exact hm

/-- **C3** (amended).  `purge_blockblobs_lru` deletes only purgeable blobs (in-use
status empty apart from BACKED); it considers candidates in an order sorted by
`compare_bbs` — the difference of `last_modified` values truncated to a 32-bit
`int`, which coincides with ascending `last_modified` whenever all pairwise
differences fit in a signed 32-bit integer (tie order unspecified, `qsort` being
unstable); it stops as soon as the cumulative number of reclaimed blocks reaches
`need_blocks` (checked after each candidate, with `need_blocks ≥ 1` as in its
caller); and it returns the total number of blocks reclaimed (the sum of the
sizes of the deleted blobs whose files were actually removed). -/
theorem c3_theorem :
    (∀ (input l : List BBSummary), l.Perm input →
       l.Pairwise (fun x y => compare_bbs x y ≤ 0) →
       (∀ x ∈ input, ∀ y ∈ input, -(2 ^ 31) ≤ x.lastModified - y.lastModified ∧
         x.lastModified - y.lastModified < 2 ^ 31) →
       l.Pairwise (fun x y => x.lastModified ≤ y.lastModified)) ∧
    (∀ (fmt : BlobstoreFormat) (bsPath : FsPath) (p : List BBSummary) (fs : FS),
       (∀ x ∈ (purge_sweep fmt bsPath p fs).2.1, purgeable x = true ∧ x ∈ p) ∧
       (purge_sweep fmt bsPath p fs).1 =
         ((purge_sweep fmt bsPath p fs).2.1.map (fun x => x.sizeBlocks)).sum) ∧
    (∀ (fmt : BlobstoreFormat) (bsPath : FsPath) (need : Int)
       (sorted : List BBSummary) (fs : FS), 1 ≤ need →
       ∃ p s, sorted = p ++ s ∧
         purge_blockblobs_lru_model fmt bsPath sorted need fs =
           ((purge_sweep fmt bsPath p fs).1,
            (purge_sweep fmt bsPath p fs).2.1,
            (purge_sweep fmt bsPath p fs).2.2) ∧
         (s ≠ [] → need ≤ (purge_sweep fmt bsPath p fs).1) ∧
         (∀ p₀ x, p = p₀ ++ [x] → (purge_sweep fmt bsPath p₀ fs).1 < need)) := by
  refine ⟨?_, purge_sweep_facts, ?_⟩
  · intro input l hperm hpw hrange
    refine List.Pairwise.imp_of_mem ?_ hpw
    intro a b ha hb hab
    have hra := hrange a (hperm.mem_iff.mp ha) b (hperm.mem_iff.mp hb)
    have := wrap32_eq_self (a.lastModified - b.lastModified) hra.1 hra.2
    rw [compare_bbs, this] at hab
    omega
  · intro fmt bsPath need sorted fs hneed
    obtain ⟨p, s, hsplit, heq, hstop, hmin⟩ :=
      purge_run_char fmt bsPath need sorted 0 fs (by omega)
    refine ⟨p, s, hsplit, ?_, ?_, ?_⟩
    · rw [purge_blockblobs_lru_model, heq]
      rw [Prod.mk.injEq, Prod.mk.injEq]
      exact ⟨by omega, rfl, rfl⟩
    · intro hs
      have := hstop hs
      omega
    · intro p₀ x hx
      have := hmin p₀ x hx
      omega

/-- A purgeable 10-block blob modified at second 5. -/
def bbMid : BBSummary := ⟨["c"], 10, 5, ⟨false, false, false⟩⟩

/-- **C3** (witness). The three parts of the amended claim at concrete inputs:
an in-range sorted pair is ascending by `last_modified`; the sweep facts on a
one-candidate store; and the stop/return characterization of a concrete purge. -/
theorem c3_witness :
    List.Pairwise (fun x y => x.lastModified ≤ y.lastModified) [bbEarly, bbMid] ∧
    ((∀ x ∈ (purge_sweep .files ["bs"] [bbEarly] purgeFS).2.1,
        purgeable x = true ∧ x ∈ [bbEarly]) ∧
      (purge_sweep .files ["bs"] [bbEarly] purgeFS).1 =
        ((purge_sweep .files ["bs"] [bbEarly] purgeFS).2.1.map
          (fun x => x.sizeBlocks)).sum) ∧
    (∃ p s, [bbEarly] = p ++ s ∧
       purge_blockblobs_lru_model .files ["bs"] [bbEarly] 10 purgeFS =
         ((purge_sweep .files ["bs"] p purgeFS).1,
          (purge_sweep .files ["bs"] p purgeFS).2.1,
          (purge_sweep .files ["bs"] p purgeFS).2.2) ∧
       (s ≠ [] → 10 ≤ (purge_sweep .files ["bs"] p purgeFS).1) ∧
       (∀ p₀ x, p = p₀ ++ [x] → (purge_sweep .files ["bs"] p₀ purgeFS).1 < 10)) :=
  ⟨c3_theorem.1 [bbEarly, bbMid] [bbEarly, bbMid] (List.Perm.refl _) (by decide) (by decide),
   c3_theorem.2.1 .files ["bs"] [bbEarly] purgeFS,
   c3_theorem.2.2 .files ["bs"] 10 [bbEarly] purgeFS (by decide)⟩

/-! ### `blockblob_open`
Precondition checks, the create and pre-existing branches, the loopback phase,
and the cleanup paths.  Externally observed outcomes (locks, `fstat`, `lseek`,
the loopback helper) are environment inputs; sidecar reads and writes go
through the modelled filesystem. -/

/-- `blobstore_revocation_t`. -/
inductive BlobstoreRevocationT where
  | any | noRevoc | lru
deriving DecidableEq, Repr

/-- The blobstore handle fields `blockblob_open` uses. -/
structure BlobstoreDesc where
  path : FsPath
  limitBlocks : Nat
  revocation : BlobstoreRevocationT
  snapshot : BlobstoreSnapshotT
  format : BlobstoreFormat
deriving DecidableEq, Repr

/-- Environment of one `blockblob_open` call: the generated id (for a null id),
lock and syscall outcomes, the `fstat` size of the blocks file, the scan result,
and the loopback-device observations. -/
structure OpenEnv where
  genId : FsPath
  lockOk : Bool
  ensureDir : Int
  openOk : Bool
  fstatOk : Bool
  stSize : Nat
  scanOk : Bool
  scanned : List BBSummary
  extendOk : Bool
  writeSigOk : Bool
  loopStat : Option Bool
  loopAttachOk : Bool
  loDev : String
deriving DecidableEq, Repr

/-- The observable steps of `blockblob_open`, in order. -/
inductive OpenEffect where
  | lockStore | ensureDirs | openBlocks | scan | purge | extend | writeSig
  | statLoop | loopAttach | writeLoopback | closeBlocks | deleteFiles | unlockStore
deriving DecidableEq, Repr

/-- The returned blockblob handle fields of interest. -/
structure OpenHandle where
  id : FsPath
  sizeBlocks : Nat
  devicePath : String
deriving DecidableEq, Repr

structure OpenResult where
  res : Except BlobstoreError OpenHandle
  fs : FS
  trace : List OpenEffect
deriving Repr

/-- The `clean:`/`unlock:` error path of `blockblob_open`: close the blocks
descriptor when open, delete the blob's files when this call created the
directory or the blob, unlock the store, and preserve the original error. -/
def openClean (e : BlobstoreError) (fmt : BlobstoreFormat) (bsPath bbId : FsPath)
    (fdOpen created : Bool) (fs : FS) (tr : List OpenEffect) : OpenResult :=
  let tr1 := tr ++ (if fdOpen then [OpenEffect.closeBlocks] else [])
  if created then
    ⟨.error e, (delete_blockblob_files fmt bsPath bbId fs).2, tr1 ++ [.deleteFiles, .unlockStore]⟩
  else ⟨.error e, fs, tr1 ++ [.unlockStore]⟩

/-- The sig comparison of `blockblob_open`: `read_blockblob_metadata_path` fails
on a missing or empty sidecar (read size below 1), and the read size and bytes
must match the supplied signature exactly. -/
def sigMatch (fs : FS) (p : FsPath) (s : String) : Bool :=
  match fs.getFile p with
  | some c => decide (1 ≤ c.length) && decide (c = s)
  | none => false

/-- A comparator-respecting sort standing in for `qsort` with `compare_bbs`
(insertion sort; `qsort` guarantees no particular order among ties). -/
def insertCmp (x : BBSummary) : List BBSummary → List BBSummary
  | [] => [x]
  | y :: ys => if compare_bbs x y ≤ 0 then x :: y :: ys else y :: insertCmp x ys

def qsortModel (l : List BBSummary) : List BBSummary := l.foldr insertCmp []

/-- The loopback phase common to both branches: reuse a recorded loopback device
when it names a block device, else attach a fresh one and record it; then derive
`device_path` from the `dm` sidecar (its last entry) or the loopback, unlock and
return the handle. -/
def open_loopback_phase (env : OpenEnv) (bs : BlobstoreDesc) (bbId : FsPath)
    (szBlocks : Nat) (created : Bool) (fs : FS) (tr : List OpenEffect) : OpenResult :=
  let loPath := set_blockblob_metadata_path bs.format bs.path bbId .loopback
  let finish : FS → List OpenEffect → OpenResult := fun fsf trf =>
    let dmArr := read_array_blockblob_metadata_path bs.format bs.path bbId .dm fsf
    let dev :=
      if 0 < dmArr.length then "/dev/mapper/" ++ (dmArr.getLast?.getD "")
      else match fsf.getFile loPath with | some c => c | none => ""
    ⟨.ok ⟨bbId, szBlocks, dev⟩, fsf, trf ++ [.unlockStore]⟩
  let loRaw : String := match fs.getFile loPath with | some c => c | none => ""
  if 0 < loRaw.length then
    match env.loopStat with
    | some true => finish fs (tr ++ [.statLoop])
    | _ => openClean .UNKNOWN bs.format bs.path bbId true created fs (tr ++ [.statLoop])
  else
    if ¬ env.loopAttachOk then
      openClean .UNKNOWN bs.format bs.path bbId true created fs (tr ++ [.loopAttach])
    else finish (fs.setFile loPath env.loDev) (tr ++ [.loopAttach, .writeLoopback])

/-- The new-blob branch: scan, compute occupancy, run the LRU purge when policy
permits and enough purgeable material exists, extend the file with a hole, and
record the signature when supplied. -/
def open_create_branch (env : OpenEnv) (bs : BlobstoreDesc) (bbId : FsPath)
    (sizeBlocks : Nat) (sig : Option String) (_createdDir : Bool) (fs : FS)
    (tr : List OpenEffect) : OpenResult :=
  if ¬ env.scanOk then
    openClean .UNKNOWN bs.format bs.path bbId true true fs (tr ++ [.scan])
  else
    let tr := tr ++ [.scan]
    let blocksInuse : Int :=
      ((env.scanned.filter (fun b => ¬ purgeable b)).map (fun b => b.sizeBlocks)).sum
    let blocksAlloc : Int :=
      ((env.scanned.filter (fun b => purgeable b)).map (fun b => b.sizeBlocks)).sum
    let blocksFree : Int := (bs.limitBlocks : Int) - (blocksAlloc + blocksInuse)
    let afterSpace : FS → List OpenEffect → OpenResult := fun fs1 tr1 =>
      if ¬ env.extendOk then
        openClean .UNKNOWN bs.format bs.path bbId true true fs1 (tr1 ++ [.extend])
      else
        match sig with
        | some s =>
          if ¬ env.writeSigOk then
            openClean .UNKNOWN bs.format bs.path bbId true true fs1
              (tr1 ++ [.extend, .writeSig])
          else
            open_loopback_phase env bs bbId sizeBlocks true
              (fs1.setFile (set_blockblob_metadata_path bs.format bs.path bbId .sig) s)
              (tr1 ++ [.extend, .writeSig])
        | none => open_loopback_phase env bs bbId sizeBlocks true fs1 (tr1 ++ [.extend])
    if blocksFree < (sizeBlocks : Int) then
      if (¬ (bs.revocation = .lru)) ∨ blocksFree + blocksAlloc < (sizeBlocks : Int) then
        openClean .NOSPC bs.format bs.path bbId true true fs tr
      else
        let pr := purge_blockblobs_lru_model bs.format bs.path (qsortModel env.scanned)
          ((sizeBlocks : Int) - blocksFree) fs
        if pr.1 < (sizeBlocks : Int) - blocksFree then
          openClean .NOSPC bs.format bs.path bbId true true pr.2.2 (tr ++ [.purge])
        else afterSpace pr.2.2 (tr ++ [.purge])
    else afterSpace fs tr

/-- The pre-existing branch: verify the requested size against the stored size
(taking the stored size when 0 was requested), then verify the signature when
supplied. -/
def open_existing_branch (env : OpenEnv) (bs : BlobstoreDesc) (bbId : FsPath)
    (sizeBlocks : Nat) (sig : Option String) (createdDir : Bool) (fs : FS)
    (tr : List OpenEffect) : OpenResult :=
  if sizeBlocks ≠ 0 ∧ sizeBlocks ≠ env.stSize / 512 then
    openClean .INVAL bs.format bs.path bbId true createdDir fs tr
  else
    let sz := if sizeBlocks = 0 then env.stSize / 512 else sizeBlocks
    match sig with
    | some s =>
      if sigMatch fs (set_blockblob_metadata_path bs.format bs.path bbId .sig) s then
        open_loopback_phase env bs bbId sz createdDir fs tr
      else openClean .SIGNATURE bs.format bs.path bbId true createdDir fs tr
    | none => open_loopback_phase env bs bbId sz createdDir fs tr

/-- `blockblob_open(bs, id, size_blocks, flags, sig, timeout)`. -/
def blockblob_open_model (env : OpenEnv) (bs : BlobstoreDesc) (idOpt : Option FsPath)
    (sizeBlocks : Nat) (flags : BlobFlags) (sig : Option String) (fs : FS) : OpenResult :=
  if flags.rdonly || flags.rdwr then ⟨.error .INVAL, fs, []⟩
  else if idOpt.isNone && ! flags.creat then ⟨.error .INVAL, fs, []⟩
  else if decide (sizeBlocks = 0) && flags.creat then ⟨.error .INVAL, fs, []⟩
  else if decide (sizeBlocks ≠ 0) && flags.creat && decide (bs.limitBlocks < sizeBlocks) then
    ⟨.error .NOSPC, fs, []⟩
  else
    let bbId := idOpt.getD env.genId
    if ¬ env.lockOk then ⟨.error .AGAIN, fs, [.lockStore]⟩
    else if env.ensureDir = -1 then
      ⟨.error .UNKNOWN, fs, [.lockStore, .ensureDirs, .unlockStore]⟩
    else
      let createdDir := env.ensureDir = 1
      if ¬ env.openOk then
        openClean .UNKNOWN bs.format bs.path bbId false createdDir fs
          [.lockStore, .ensureDirs, .openBlocks]
      else if ¬ env.fstatOk then
        openClean .UNKNOWN bs.format bs.path bbId true createdDir fs
          [.lockStore, .ensureDirs, .openBlocks]
      else if env.stSize = 0 then
        open_create_branch env bs bbId sizeBlocks sig createdDir fs
          [.lockStore, .ensureDirs, .openBlocks]
      else
        open_existing_branch env bs bbId sizeBlocks sig createdDir fs
          [.lockStore, .ensureDirs, .openBlocks]

/-- **C5**. `blockblob_open` checks its preconditions before any file or lock
state is touched: flags containing anything other than `Create` and `Exclusive`
fail `Invalid`; a NULL id without `Create` fails `Invalid`; `size_blocks == 0`
with `Create` fails `Invalid`; and `size_blocks > limit_blocks` with `Create`
(and otherwise admissible flags) fails `NoSpace` — in each case with the
filesystem unchanged and an empty effect trace. -/
theorem c5_theorem (env : OpenEnv) (bs : BlobstoreDesc) (idOpt : Option FsPath)
    (sizeBlocks : Nat) (flags : BlobFlags) (sig : Option String) (fs : FS) :
    ((flags.rdonly = true ∨ flags.rdwr = true) →
      blockblob_open_model env bs idOpt sizeBlocks flags sig fs = ⟨.error .INVAL, fs, []⟩) ∧
    (idOpt = none → flags.creat = false →
      blockblob_open_model env bs idOpt sizeBlocks flags sig fs = ⟨.error .INVAL, fs, []⟩) ∧
    (sizeBlocks = 0 → flags.creat = true →
      blockblob_open_model env bs idOpt sizeBlocks flags sig fs = ⟨.error .INVAL, fs, []⟩) ∧
    (flags.rdonly = false → flags.rdwr = false → flags.creat = true →
      bs.limitBlocks < sizeBlocks →
      blockblob_open_model env bs idOpt sizeBlocks flags sig fs = ⟨.error .NOSPC, fs, []⟩) := by
  refine ⟨?_, ?_, ?_, ?_⟩
  · rintro (h | h) <;> simp [blockblob_open_model, h]
  · intro h1 h2
    rw [blockblob_open_model]
    by_cases hf : (flags.rdonly || flags.rdwr) = true
    · rw [if_pos hf]
    · rw [if_neg hf, if_pos (by simp [h1, h2])]
  · intro h1 h2
    rw [blockblob_open_model]
    by_cases hf : (flags.rdonly || flags.rdwr) = true
    · rw [if_pos hf]
    · rw [if_neg hf]
      by_cases hn : (idOpt.isNone && ! flags.creat) = true
      · rw [if_pos hn]
      · rw [if_neg hn, if_pos (by simp [h1, h2])]
  · intro h1 h2 h3 h4
    have hsz : sizeBlocks ≠ 0 := by omega
    rw [blockblob_open_model]
    rw [if_neg (by simp [h1, h2])]
    rw [if_neg (by simp [h3])]
    rw [if_neg (by simp [hsz])]
    rw [if_pos (by simp [h3, hsz, h4])]

/-- **C5** (witness). The four precondition failures at concrete inputs. -/
theorem c5_witness :
    (blockblob_open_model ⟨["g"], true, 0, true, true, 0, true, [], true, true,
        some true, true, "/dev/loop9"⟩ ⟨["bs"], 100, .noRevoc, .dm, .files⟩
        (some ["b"]) 10 ⟨false, true, false, false⟩ none ⟨[], [["bs"]]⟩ =
      ⟨.error .INVAL, ⟨[], [["bs"]]⟩, []⟩) ∧
    (blockblob_open_model ⟨["g"], true, 0, true, true, 0, true, [], true, true,
        some true, true, "/dev/loop9"⟩ ⟨["bs"], 100, .noRevoc, .dm, .files⟩
        none 10 ⟨false, false, false, false⟩ none ⟨[], [["bs"]]⟩ =
      ⟨.error .INVAL, ⟨[], [["bs"]]⟩, []⟩) ∧
    (blockblob_open_model ⟨["g"], true, 0, true, true, 0, true, [], true, true,
        some true, true, "/dev/loop9"⟩ ⟨["bs"], 100, .noRevoc, .dm, .files⟩
        (some ["b"]) 0 ⟨false, false, true, true⟩ none ⟨[], [["bs"]]⟩ =
      ⟨.error .INVAL, ⟨[], [["bs"]]⟩, []⟩) ∧
    (blockblob_open_model ⟨["g"], true, 0, true, true, 0, true, [], true, true,
        some true, true, "/dev/loop9"⟩ ⟨["bs"], 100, .noRevoc, .dm, .files⟩
        (some ["b"]) 101 ⟨false, false, true, true⟩ none ⟨[], [["bs"]]⟩ =
      ⟨.error .NOSPC, ⟨[], [["bs"]]⟩, []⟩) :=
  ⟨(c5_theorem _ _ _ _ _ _ _).1 (Or.inr rfl),
   (c5_theorem _ _ _ _ _ _ _).2.1 rfl rfl,
   (c5_theorem _ _ _ _ _ _ _).2.2.1 rfl rfl,
   (c5_theorem _ _ _ _ _ _ _).2.2.2 rfl rfl rfl (by decide)⟩

theorem openClean_res (e : BlobstoreError) (fmt : BlobstoreFormat) (bsPath bbId : FsPath)
    (fdOpen created : Bool) (fs : FS) (tr : List OpenEffect) :
    (openClean e fmt bsPath bbId fdOpen created fs tr).res = .error e := by
  rw [openClean]
  split <;> rfl

/-- **C6**. When `blockblob_open` opens a pre-existing (non-empty) blob — the
store lock, directory creation, `open_and_lock` and `fstat` all succeeding, the
preconditions passing (no read flags, no create), and the stored file size being
nonzero: (a) a nonzero requested `size_blocks` differing from the stored size
divided by 512 fails `Invalid`; (b) a supplied `sig` that does not match the
stored `sig` sidecar's contents (missing, empty, or different) fails
`SignatureMismatch`; and (c) with `size_blocks = 0`, no signature, and a recorded
loopback device that is a valid block device, the open succeeds and the handle
adopts the stored size `st_size / 512`. -/
theorem c6_theorem (env : OpenEnv) (bs : BlobstoreDesc) (bbId : FsPath)
    (sizeBlocks : Nat) (flags : BlobFlags) (sig : Option String) (fs : FS)
    (h1 : flags.rdonly = false) (h2 : flags.rdwr = false) (h3 : flags.creat = false)
    (hlk : env.lockOk = true) (hdir : env.ensureDir ≠ -1)
    (hopen : env.openOk = true) (hfst : env.fstatOk = true)
    (hsz : env.stSize ≠ 0) :
    ((sizeBlocks ≠ 0 → sizeBlocks ≠ env.stSize / 512 →
      (blockblob_open_model env bs (some bbId) sizeBlocks flags sig fs).res =
        .error .INVAL) ∧
    ((sizeBlocks = 0 ∨ sizeBlocks = env.stSize / 512) → ∀ s, sig = some s →
      sigMatch fs (set_blockblob_metadata_path bs.format bs.path bbId .sig) s = false →
      (blockblob_open_model env bs (some bbId) sizeBlocks flags sig fs).res =
        .error .SIGNATURE) ∧
    (sizeBlocks = 0 → sig = none →
      (∀ c, fs.getFile (set_blockblob_metadata_path bs.format bs.path bbId .loopback) =
        some c → 0 < c.length) →
      (fs.getFile (set_blockblob_metadata_path bs.format bs.path bbId .loopback)).isSome
        = true →
      env.loopStat = some true →
      ∃ dev, (blockblob_open_model env bs (some bbId) sizeBlocks flags sig fs).res =
        .ok ⟨bbId, env.stSize / 512, dev⟩)) := by
  have hpre : blockblob_open_model env bs (some bbId) sizeBlocks flags sig fs =
      open_existing_branch env bs bbId sizeBlocks sig (env.ensureDir = 1) fs
        [.lockStore, .ensureDirs, .openBlocks] := by
    rw [blockblob_open_model]
    rw [if_neg (by simp [h1, h2])]
    rw [if_neg (by simp [h3])]
    rw [if_neg (by simp [h3])]
    rw [if_neg (by simp [h3])]
    rw [if_neg (by simp [hlk])]
    rw [if_neg hdir]
    rw [if_neg (by simp [hopen])]
    rw [if_neg (by simp [hfst])]
    rw [if_neg hsz]
    rfl
  refine ⟨?_, ?_, ?_⟩
  · intro ha hb
    rw [hpre, open_existing_branch, if_pos ⟨ha, hb⟩]
    exact openClean_res _ _ _ _ _ _ _ _
  · intro hab s hs hmis
    rw [hpre, open_existing_branch,
      if_neg (by rcases hab with h | h <;> simp [h])]
    rw [hs]
    simp only []
    rw [if_neg (by simp [hmis])]
    exact openClean_res _ _ _ _ _ _ _ _
  · intro ha hb hlen hsome hstat
    obtain ⟨c, hc⟩ := Option.isSome_iff_exists.mp hsome
    rw [hpre, open_existing_branch, if_neg (by simp [ha])]
    rw [hb]
    simp only [open_loopback_phase, hc]
    rw [if_pos (hlen c hc), hstat, if_pos ha]
    exact ⟨_, rfl⟩

/-- Environment for opening a pre-existing blob: everything succeeds and the
stored `blocks` file is 5120 bytes (10 blocks). -/
def env6 : OpenEnv :=
  ⟨["g"], true, 0, true, true, 5120, true, [], true, true, some true, true, "/dev/loop9"⟩

def bs6 : BlobstoreDesc := ⟨["bs"], 100, .noRevoc, .dm, .files⟩

/-- Store with blob `b`: data, signature `"sigval"`, recorded loopback. -/
def fs6 : FS :=
  ⟨[(["bs", "b.blocks"], "data"), (["bs", "b.sig"], "sigval"),
    (["bs", "b.loopback"], "/dev/loop3")], [["bs"]]⟩

/-- **C6** (witness). Opening blob `b` (stored size 10 blocks): requesting size 7
fails `Invalid`; supplying signature `"nope"` against stored `"sigval"` fails
`SignatureMismatch`; requesting size 0 with no signature succeeds and adopts the
stored size 10. -/
theorem c6_witness :
    (blockblob_open_model env6 bs6 (some ["b"]) 7 ⟨false, false, false, false⟩
      none fs6).res = .error .INVAL ∧
    (blockblob_open_model env6 bs6 (some ["b"]) 0 ⟨false, false, false, false⟩
      (some "nope") fs6).res = .error .SIGNATURE ∧
    ∃ dev, (blockblob_open_model env6 bs6 (some ["b"]) 0 ⟨false, false, false, false⟩
      none fs6).res = .ok ⟨["b"], env6.stSize / 512, dev⟩ :=
  ⟨(c6_theorem env6 bs6 ["b"] 7 ⟨false, false, false, false⟩ none fs6
      rfl rfl rfl rfl (by decide) rfl rfl (by decide)).1 (by decide) (by decide),
   (c6_theorem env6 bs6 ["b"] 0 ⟨false, false, false, false⟩ (some "nope") fs6
      rfl rfl rfl rfl (by decide) rfl rfl (by decide)).2.1 (Or.inl rfl) "nope" rfl
      (by decide),
   (c6_theorem env6 bs6 ["b"] 0 ⟨false, false, false, false⟩ none fs6
      rfl rfl rfl rfl (by decide) rfl rfl (by decide)).2.2 rfl rfl
      (by
        intro c hc
        have h0 : fs6.getFile
            (set_blockblob_metadata_path bs6.format bs6.path ["b"] .loopback) =
            some "/dev/loop3" := rfl
        rw [Option.some_inj.mp (hc.symm.trans h0)]
        decide)
      (by decide) rfl⟩

end Blobstore
